import Mathlib

/-
  Shallow embedding of src/index.ts (playwright-console-report):
  a Playwright reporter class (JenkinsReporter) with callbacks
  onBegin / onTestBegin / onTestEnd / onEnd.

  Modelling conventions:
  - JS numbers are Nat (timestamps, counters, durations in ms) or Int where
    a subtraction may go negative (endedAt - startedAt fed to clock/seconds
    formatters, which clamp at zero exactly as Math.max(0, ...) does).
  - Date.now() is an explicit `now : Nat` argument on each callback.
  - The JS Map specStats is an association list with first-key-wins lookup;
    the JS Sets videoPaths/screenshotPaths are dedup-on-insert lists.
  - Optional JS values (error, attachment body/path, string | undefined)
    are Option; JS truthiness of an optional string (undefined and "" are
    both falsy) is the `truthy` predicate.
  - process.stdout writes are modelled as a trace of structured output
    events carrying exactly the data the source interpolates into the text
    (box drawing, ANSI wrapping and padding are presentation-only and are
    kept where they affect content: test lines carry their color wrapping).
  - Number.prototype.toFixed(1) in formatDuration is modelled as exact
    decimal rounding half-up of the millisecond value.
-/

namespace PCR

inductive TStatus
  | passed
  | failed
  | timedOut
  | skipped
deriving DecidableEq, Repr

inductive Outcome
  | expected
  | unexpected
  | flaky
  | skipped
deriving DecidableEq, Repr

inductive FullStatus
  | passed
  | failed
  | timedout
  | interrupted
deriving DecidableEq, Repr

structure TestError where
  message : Option String
  stack : Option String
deriving DecidableEq, Repr

structure Attachment where
  name : String
  contentType : Option String
  path : Option String
  body : Option String
deriving DecidableEq, Repr

/-- A TestCase descriptor as the host hands it to the reporter: source file,
title, full title path, configured retry budget, the outcome() value at the
moment of the callback, and the annotation types. -/
structure TestCase where
  file : String
  title : String
  titlePath : List String
  retries : Nat
  outcome : Outcome
  annotations : List String
deriving DecidableEq, Repr

structure TestResult where
  status : TStatus
  duration : Nat
  retry : Nat
  error : Option TestError
  attachments : List Attachment
deriving DecidableEq, Repr

/-- type FailedTest of src/index.ts. -/
structure FailedTest where
  filePath : String
  titlePath : List String
  error : Option TestError
  unexpectedPass : Bool
  consoleErrors : Option String
  networkFailures : Option String
deriving DecidableEq, Repr

/-- type SpecStats of src/index.ts. -/
structure SpecStats where
  filePath : String
  fileName : String
  total : Nat
  completed : Nat
  passing : Nat
  failing : Nat
  flaky : Nat
  pending : Nat
  skipped : Nat
  startedAt : Nat
  endedAt : Nat
  videoPaths : List String
  screenshotPaths : List String
  testLines : List String
deriving DecidableEq, Repr

/-- One failure block of the (Failures) section, as printed by
printSpecResults: a numbered header line, or a printEntry call (with
`skipError = true` for the attachments-only sub-blocks). -/
inductive FailureBlock
  | header (num : Nat) (title : String)
  | entry (label : Option String) (skipError : Bool) (failure : FailedTest)
deriving DecidableEq, Repr

/-- Structured rendering of one write to the output stream. -/
inductive OutEvent
  | runStarting (specCount : Nat) (fileNames : List String)
  | specResults (spec : SpecStats) (specIndex : Int) (durationText : String)
      (failureBlocks : List FailureBlock)
  | runFinished
  | tableRow (filePath : String) (shownName : String) (failingRow : Bool)
      (durationText : String) (total : Nat) (passing : Nat) (failing : Nat)
      (pending : Nat) (skipped : Nat)
  | footer (allPassed : Bool) (durationText : String) (totalTests : Nat)
      (passed : Nat) (failed : Nat) (pending : Nat) (skipped : Nat)
  | statusLine (status : FullStatus)
deriving DecidableEq, Repr

/-- The private fields of the JenkinsReporter class, plus the output trace. -/
structure RunState where
  useColor : Bool
  totalTests : Nat
  passed : Nat
  failed : Nat
  pending : Nat
  skipped : Nat
  flaky : Nat
  startTime : Nat
  failureDetails : List FailedTest
  specOrder : List String
  specStats : List (String × SpecStats)
  displayedSpecStart : List String
  tableFilenameWidth : Nat
  tableRowWidth : Nat
  output : List OutEvent
deriving DecidableEq, Repr

/-- Association-list lookup (JS Map.get). -/
def mapGet (m : List (String × SpecStats)) (k : String) : Option SpecStats :=
  match m with
  | [] => none
  | (k2, v) :: rest => if k2 = k then some v else mapGet rest k

/-- Association-list update (JS Map.set / in-place mutation of the stored
SpecStats object). -/
def mapSet (m : List (String × SpecStats)) (k : String) (v : SpecStats) :
    List (String × SpecStats) :=
  match m with
  | [] => [(k, v)]
  | (k2, v2) :: rest =>
    if k2 = k then (k2, v) :: rest else (k2, v2) :: mapSet rest k v

/-- JS Set.add: append if not already present. -/
def insertSet (s : List String) (x : String) : List String :=
  if x ∈ s then s else s ++ [x]

/-- JS truthiness of a `string | undefined` value: undefined and the empty
string are falsy. -/
def truthy : Option String → Bool
  | none => false
  | some s => !(s == "")

/-- JS optional chaining o?.startsWith(p), undefined being falsy. -/
def startsWithOpt (o : Option String) (p : String) : Bool :=
  match o with
  | none => false
  | some s => s.startsWith p

/-- Array.prototype.join(sep). -/
def joinSep (sep : String) : List String → String
  | [] => ""
  | x :: rest => rest.foldl (fun acc y => acc ++ sep ++ y) x

/-- this.green — wraps in ANSI green when color is on. -/
def green (useColor : Bool) (value : String) : String :=
  if useColor then "\x1b[32m" ++ value ++ "\x1b[0m" else value

/-- this.red — wraps in ANSI red when color is on. -/
def red (useColor : Bool) (value : String) : String :=
  if useColor then "\x1b[31m" ++ value ++ "\x1b[0m" else value

/-- Characters after the last slash (String.substring(lastIndexOf + 1)). -/
def afterLastSlash (l : List Char) : List Char :=
  l.foldl (fun acc c => if c = '/' then [] else acc ++ [c]) []

/-- this.getFileName: normalize backslashes, keep what follows the last
slash. -/
def getFileName (filePath : String) : String :=
  String.mk (afterLastSlash (filePath.data.map
    (fun c => if c = '\\' then '/' else c)))

/-- this.truncate: identity within max, otherwise slice to max - 1 chars and
append a single ellipsis character. -/
def truncate (value : String) (max : Nat) : String :=
  if value.length ≤ max then value
  else String.mk (value.data.take (max - 1) ++ ['…'])

/-- this.formatDuration: "Nms" under one second, else seconds with one
decimal (toFixed(1) modelled as decimal rounding half-up). -/
def formatDuration (durationMs : Nat) : String :=
  if durationMs < 1000 then toString durationMs ++ "ms"
  else
    let tenths := (durationMs * 10 + 500) / 1000
    toString (tenths / 10) ++ "." ++ toString (tenths % 10) ++ "s"

def pad2 (n : Nat) : String :=
  if n < 10 then "0" ++ toString n else toString n

/-- this.formatClockDuration: MM:SS, floor seconds, clamped at zero. -/
def formatClockDuration (durationMs : Int) : String :=
  let totalSeconds := (max 0 (durationMs.fdiv 1000)).toNat
  pad2 (totalSeconds / 60) ++ ":" ++ pad2 (totalSeconds % 60)

/-- this.formatSecondsText: Math.round(ms / 1000) clamped at zero, with
singular/plural wording. -/
def formatSecondsText (durationMs : Int) : String :=
  let seconds := (max 0 ((durationMs + 500).fdiv 1000)).toNat
  if seconds = 1 then "1 second" else toString seconds ++ " seconds"

/-- First-seen order of test files (onBegin loop over allTests). -/
def buildSpecOrder (allTests : List TestCase) : List String :=
  allTests.foldl (fun acc t => if t.file ∈ acc then acc else acc ++ [t.file]) []

/-- specCounts.get(filePath) || 0 — number of discovered tests per file. -/
def countFile (allTests : List TestCase) (fp : String) : Nat :=
  (allTests.filter (fun t => t.file = fp)).length

/-- The fresh SpecStats entry built in the onBegin loop. -/
def mkSpec (filePath : String) (total : Nat) : SpecStats :=
  { filePath := filePath
    fileName := getFileName filePath
    total := total
    completed := 0
    passing := 0
    failing := 0
    flaky := 0
    pending := 0
    skipped := 0
    startedAt := 0
    endedAt := 0
    videoPaths := []
    screenshotPaths := []
    testLines := [] }

/-- Math.max(...lengths, 20) over the spec file names. -/
def longestFileName (specOrder : List String) : Nat :=
  (specOrder.map (fun fp => (getFileName fp).length)).foldl max 20

/-- onBegin: the state after the begin callback (browser/searched display
strings are environment-dependent presentation and carry no claim). -/
def initState (useColor : Bool) (allTests : List TestCase) (now : Nat) :
    RunState :=
  let specOrder := buildSpecOrder allTests
  { useColor := useColor
    totalTests := allTests.length
    passed := 0
    failed := 0
    pending := 0
    skipped := 0
    flaky := 0
    startTime := now
    failureDetails := []
    specOrder := specOrder
    specStats := specOrder.map (fun fp => (fp, mkSpec fp (countFile allTests fp)))
    displayedSpecStart := []
    tableFilenameWidth := longestFileName specOrder
    tableRowWidth := longestFileName specOrder + 51
    output := [OutEvent.runStarting specOrder.length (specOrder.map getFileName)] }

/-- onTestBegin: record the first-seen timestamp for the file once. -/
def onTestBegin (st : RunState) (test : TestCase) (now : Nat) : RunState :=
  match mapGet st.specStats test.file with
  | none => st
  | some spec =>
    if test.file ∈ st.displayedSpecStart then st
    else
      let spec2 := if spec.startedAt = 0 then { spec with startedAt := now } else spec
      { st with
        displayedSpecStart := st.displayedSpecStart ++ [test.file]
        specStats := mapSet st.specStats test.file spec2 }

/-- result.status === passed && outcome === unexpected. -/
def isUnexpectedPass (test : TestCase) (result : TestResult) : Bool :=
  result.status == TStatus.passed && test.outcome == Outcome.unexpected

/-- The final-attempt predicate of onTestEnd (src/index.ts lines 145-150). -/
def isFinalAttempt (test : TestCase) (result : TestResult) : Bool :=
  result.retry == test.retries ||
  test.outcome == Outcome.expected ||
  (result.status != TStatus.failed && result.status != TStatus.timedOut &&
    !(isUnexpectedPass test result))

/-- test.annotations.some(a => a.type === fixme). -/
def isFixme (test : TestCase) : Bool :=
  test.annotations.any (fun a => a == "fixme")

/-- The outcome bucket picked by the cascading conditionals of onTestEnd:
first match wins among expected / flaky / skipped-status / everything else. -/
inductive Bucket
  | pass
  | flakyPass
  | pending
  | skip
  | fail
deriving DecidableEq, Repr

def bucketOf (test : TestCase) (result : TestResult) : Bucket :=
  if test.outcome == Outcome.expected then Bucket.pass
  else if test.outcome == Outcome.flaky then Bucket.flakyPass
  else if result.status == TStatus.skipped then
    (if isFixme test then Bucket.pending else Bucket.skip)
  else Bucket.fail

/-- result.attachments.find(a => a.name === n). -/
def findAttachment (attachments : List Attachment) (n : String) :
    Option Attachment :=
  attachments.find? (fun a => a.name == n)

/-- The FailedTest record pushed onto failureDetails in the failure branch. -/
def mkFailureRecord (test : TestCase) (result : TestResult) : FailedTest :=
  { filePath := test.file
    titlePath := test.titlePath
    error := result.error
    unexpectedPass := result.status == TStatus.passed
    consoleErrors := (findAttachment result.attachments "console-errors").bind
      (fun a => a.body)
    networkFailures := (findAttachment result.attachments "network-failures").bind
      (fun a => a.body) }

/-- Global-counter (and failureDetails) part of the onTestEnd cascade. -/
def applyGlobal (st : RunState) (b : Bucket) (rec : FailedTest) : RunState :=
  match b with
  | Bucket.pass => { st with passed := st.passed + 1 }
  | Bucket.flakyPass => { st with flaky := st.flaky + 1, passed := st.passed + 1 }
  | Bucket.pending => { st with pending := st.pending + 1 }
  | Bucket.skip => { st with skipped := st.skipped + 1 }
  | Bucket.fail =>
    { st with
      failed := st.failed + 1
      failureDetails := st.failureDetails ++ [rec] }

/-- Per-spec counter part of the onTestEnd cascade. -/
def applySpecCounters (spec : SpecStats) (b : Bucket) : SpecStats :=
  match b with
  | Bucket.pass => { spec with passing := spec.passing + 1 }
  | Bucket.flakyPass =>
    { spec with flaky := spec.flaky + 1, passing := spec.passing + 1 }
  | Bucket.pending => { spec with pending := spec.pending + 1 }
  | Bucket.skip => { spec with skipped := spec.skipped + 1 }
  | Bucket.fail => { spec with failing := spec.failing + 1 }

/-- The formatted display line appended to spec.testLines (the branch
structure is identical to the counter cascade). -/
def testLineFor (useColor : Bool) (test : TestCase) (result : TestResult) :
    String :=
  let duration := formatDuration result.duration
  match bucketOf test result with
  | Bucket.pass =>
    if result.status == TStatus.failed then
      green useColor ("    ✔ " ++ test.title ++ " (" ++ duration ++ ") (expected failure)")
    else
      green useColor ("    ✔ " ++ test.title ++ " (" ++ duration ++ ")")
  | Bucket.flakyPass =>
    green useColor ("    ~ " ++ test.title ++ " (" ++ duration ++ ") (flaky)")
  | Bucket.pending => "    - " ++ test.title ++ " (fixme)"
  | Bucket.skip => "    - " ++ test.title ++ " (skipped)"
  | Bucket.fail =>
    red useColor ("    ✖ " ++ test.title ++ " (" ++ duration ++ ")" ++
      (if result.status == TStatus.passed then " (unexpected pass)" else ""))

/-- Video/screenshot harvesting for one attachment (both checks run on each
attachment, in source order). -/
def harvestOne (sp : SpecStats) (a : Attachment) : SpecStats :=
  let sp1 :=
    if truthy a.path && (a.name == "video" || startsWithOpt a.contentType "video/") then
      { sp with videoPaths := insertSet sp.videoPaths (a.path.getD "") }
    else sp
  if truthy a.path && (a.name == "screenshot" || startsWithOpt a.contentType "image/") then
    { sp1 with screenshotPaths := insertSet sp1.screenshotPaths (a.path.getD "") }
  else sp1

def harvestAttachments (sp : SpecStats) (attachments : List Attachment) :
    SpecStats :=
  attachments.foldl harvestOne sp

/-- failure.error?.message as an optional value. -/
def errMessage (f : FailedTest) : Option String :=
  f.error.bind (fun e => e.message)

/-- The per-group failure record list built by the grouping loop of
printSpecResults. -/
structure FailureGroup where
  key : String
  entries : List FailedTest
deriving DecidableEq, Repr

/-- failure.titlePath.slice(2).join(" > ") — the grouping key. -/
def groupKey (f : FailedTest) : String :=
  joinSep " > " (f.titlePath.drop 2)

/-- groups.find(g => g.key === key) then push, else append a new group. -/
def addToGroups : List FailureGroup → FailedTest → List FailureGroup
  | [], f => [{ key := groupKey f, entries := [f] }]
  | g :: rest, f =>
    if g.key == groupKey f then { g with entries := g.entries ++ [f] } :: rest
    else g :: addToGroups rest f

def buildGroups (specFailures : List FailedTest) : List FailureGroup :=
  specFailures.foldl addToGroups []

/-- allSameError of printSpecResults: more than one entry, first message
defined, all messages equal to the first. -/
def allSameError (entries : List FailedTest) : Bool :=
  decide (1 < entries.length) &&
  (match entries with
   | [] => false
   | e0 :: _ =>
     (errMessage e0).isSome && entries.all (fun e => errMessage e == errMessage e0))

/-- An entry keeps JS truthiness of its diagnostic attachments
(e.networkFailures || e.consoleErrors). -/
def hasExtras (f : FailedTest) : Bool :=
  truthy f.networkFailures || truthy f.consoleErrors

/-- The blocks written for one failure group (groups.forEach body). -/
def groupBlocks (idx : Nat) (g : FailureGroup) : List FailureBlock :=
  match g.entries with
  | [] => []
  | e0 :: _ =>
    if g.entries.length = 1 then
      [FailureBlock.header (idx + 1) (joinSep " > " (e0.titlePath.drop 1)),
       FailureBlock.entry none false e0]
    else if allSameError g.entries then
      [FailureBlock.header (idx + 1) g.key,
       FailureBlock.entry none false e0] ++
      (g.entries.filter hasExtras).map
        (fun e => FailureBlock.entry (e.titlePath.get? 1) true e)
    else
      FailureBlock.header (idx + 1) g.key ::
      g.entries.map (fun e => FailureBlock.entry (e.titlePath.get? 1) false e)

/-- The whole (Failures) section of one spec flush, as structured blocks. -/
def renderFailureBlocks (specFailures : List FailedTest) : List FailureBlock :=
  ((buildGroups specFailures).enum.map (fun p => groupBlocks p.1 p.2)).flatten

/-- Array.prototype.indexOf semantics (-1 when absent). -/
def jsIndexOf (l : List String) (x : String) : Int :=
  if x ∈ l then (l.indexOf x : Int) else -1

/-- printSpecResults: appends the one structured results block for a spec
(test lines, counters, failure blocks, artifact lists all live in the
carried SpecStats / block list). -/
def printSpecResults (st : RunState) (spec : SpecStats) : RunState :=
  let durationText := formatSecondsText ((spec.endedAt : Int) - (spec.startedAt : Int))
  let specIndex := jsIndexOf st.specOrder spec.filePath + 1
  let specFailures := st.failureDetails.filter (fun f => f.filePath == spec.filePath)
  { st with
    output := st.output ++
      [OutEvent.specResults spec specIndex durationText
        (renderFailureBlocks specFailures)] }

/-- The SpecStats value after one finalized test-end event: completed
incremented, one outcome counter incremented, the display line appended,
artifacts harvested. -/
def specAfterEnd (useColor : Bool) (spec : SpecStats) (test : TestCase)
    (result : TestResult) : SpecStats :=
  let spec1 := applySpecCounters { spec with completed := spec.completed + 1 }
    (bucketOf test result)
  let spec2 := { spec1 with
    testLines := spec1.testLines ++ [testLineFor useColor test result] }
  harvestAttachments spec2 result.attachments

/-- onTestEnd: ignore unknown files and non-final attempts; otherwise count,
classify, append the test line, harvest artifacts, and flush the spec when
its completed count reaches its total. -/
def onTestEnd (st : RunState) (test : TestCase) (result : TestResult)
    (now : Nat) : RunState :=
  match mapGet st.specStats test.file with
  | none => st
  | some spec =>
    if isFinalAttempt test result then
      let st1 := applyGlobal st (bucketOf test result) (mkFailureRecord test result)
      let spec3 := specAfterEnd st.useColor spec test result
      if spec3.completed = spec3.total then
        let spec4 := { spec3 with endedAt := now }
        printSpecResults
          { st1 with specStats := mapSet st1.specStats test.file spec4 } spec4
      else
        { st1 with specStats := mapSet st1.specStats test.file spec3 }
    else st

/-- The body of the onEnd recovery loop for one file (flush when some test
completed but the spec was never flushed). -/
def flushStep (now : Nat) (acc : RunState) (fp : String) : RunState :=
  match mapGet acc.specStats fp with
  | none => acc
  | some spec =>
    if 0 < spec.completed ∧ spec.endedAt = 0 then
      let spec2 := { spec with endedAt := now }
      printSpecResults
        { acc with specStats := mapSet acc.specStats fp spec2 } spec2
    else acc

/-- The onEnd recovery loop over specOrder. -/
def flushPending (st : RunState) (now : Nat) : RunState :=
  st.specOrder.foldl (flushStep now) st

/-- The summary-table rows (one per spec in specOrder). -/
def tableRows (st : RunState) : List OutEvent :=
  st.specOrder.filterMap (fun fp =>
    match mapGet st.specStats fp with
    | none => none
    | some spec =>
      some (OutEvent.tableRow fp (truncate spec.fileName st.tableFilenameWidth)
        (0 < spec.failing)
        (formatClockDuration ((spec.endedAt : Int) - (spec.startedAt : Int)))
        spec.total spec.passing spec.failing spec.pending spec.skipped))

/-- onEnd: flush pending specs, then the run-finished banner, the summary
table, the aggregate footer (colored by the global failed counter) and the
final status line echoing the host-provided run status. -/
def onEnd (st : RunState) (resultStatus : FullStatus) (now : Nat) : RunState :=
  let st1 := flushPending st now
  { st1 with
    output := st1.output ++ [OutEvent.runFinished] ++ tableRows st1 ++
      [OutEvent.footer (st1.failed = 0)
        (formatClockDuration ((now : Int) - (st1.startTime : Int)))
        st1.totalTests st1.passed st1.failed st1.pending st1.skipped,
       OutEvent.statusLine resultStatus] }

/-- One host-framework callback invocation after onBegin. -/
inductive Event
  | testBegin (test : TestCase) (now : Nat)
  | testEnd (test : TestCase) (result : TestResult) (now : Nat)
  | runEnd (status : FullStatus) (now : Nat)
deriving DecidableEq, Repr

def step (st : RunState) : Event → RunState
  | Event.testBegin t n => onTestBegin st t n
  | Event.testEnd t r n => onTestEnd st t r n
  | Event.runEnd s n => onEnd st s n

def runEvents (st : RunState) (events : List Event) : RunState :=
  events.foldl step st

/-- Is this output event the results-block flush of the given file? -/
def isFlushOf (fp : String) : OutEvent → Bool
  | OutEvent.specResults spec _ _ _ => spec.filePath == fp
  | _ => false

/-- How many times the given file has had its results block printed. -/
def flushCount (st : RunState) (fp : String) : Nat :=
  (st.output.filter (isFlushOf fp)).length

/-- Events that belong to the test phase (everything except onEnd). -/
def isTestEvent : Event → Bool
  | Event.runEnd _ _ => false
  | _ => true

def eventTime : Event → Nat
  | Event.testBegin _ n => n
  | Event.testEnd _ _ n => n
  | Event.runEnd _ n => n

/-- A final test-end event for the given file (state-independent). -/
def isFinalEndFor (fp : String) : Event → Bool
  | Event.testEnd t r _ => t.file == fp && isFinalAttempt t r
  | _ => false

def c8Test : TestCase :=
  { file := "ghost.spec.ts", title := "ghost",
    titlePath := ["", "chromium", "ghost.spec.ts", "ghost"],
    retries := 0, outcome := Outcome.expected, annotations := [] }

def c8Result : TestResult :=
  { status := TStatus.passed, duration := 12, retry := 0, error := none,
    attachments := [] }

def c3TestAttempt (oc : Outcome) : TestCase :=
  { file := "retry.spec.ts", title := "eventually passes",
    titlePath := ["", "chromium", "retry.spec.ts", "eventually passes"],
    retries := 2, outcome := oc, annotations := [] }

def c3FailResult (k : Nat) : TestResult :=
  { status := TStatus.failed, duration := 700, retry := k,
    error := some { message := some "boom", stack := none }, attachments := [] }

def c3PassResult (k : Nat) : TestResult :=
  { status := TStatus.passed, duration := 400, retry := k, error := none,
    attachments := [] }

/-- The 2-retry fail, fail, pass run of the C3 scenario. -/
def c3Run : RunState :=
  runEvents (initState false [c3TestAttempt Outcome.unexpected] 10)
    [Event.testEnd (c3TestAttempt Outcome.unexpected) (c3FailResult 0) 11,
     Event.testEnd (c3TestAttempt Outcome.unexpected) (c3FailResult 1) 12,
     Event.testEnd (c3TestAttempt Outcome.flaky) (c3PassResult 2) 13]

def c4Test : TestCase :=
  { file := "fail-ok.spec.ts", title := "deliberate",
    titlePath := ["", "chromium", "fail-ok.spec.ts", "deliberate"],
    retries := 0, outcome := Outcome.expected, annotations := [] }

def c4Result : TestResult :=
  { status := TStatus.failed, duration := 5, retry := 0,
    error := some { message := some "assertion", stack := none },
    attachments := [] }

def c4St : RunState := initState false [c4Test] 1

def c10Test : TestCase :=
  { file := "boom.spec.ts", title := "explodes",
    titlePath := ["", "chromium", "boom.spec.ts", "explodes"],
    retries := 0, outcome := Outcome.unexpected, annotations := [] }

def c10Result : TestResult :=
  { status := TStatus.failed, duration := 9, retry := 0,
    error := some { message := some "kaput", stack := none },
    attachments := [] }

/-- The per-file counter invariant of the spec: the four disjoint outcome
counters sum to completed, and flaky is a sub-count of passing. -/
def countInvP (st : RunState) : Prop :=
  ∀ fp spec, mapGet st.specStats fp = some spec →
    spec.passing + spec.failing + spec.pending + spec.skipped =
      spec.completed ∧
    spec.flaky ≤ spec.passing

def c2Test : TestCase :=
  { file := "calm.spec.ts", title := "fine",
    titlePath := ["", "chromium", "calm.spec.ts", "fine"],
    retries := 0, outcome := Outcome.expected, annotations := [] }

def c2Result : TestResult :=
  { status := TStatus.passed, duration := 3, retry := 0, error := none,
    attachments := [] }

/-- No footer event occurs in the output. -/
def noFooter (st : RunState) : Prop :=
  ∀ b d tt p f pd sk, OutEvent.footer b d tt p f pd sk ∉ st.output

def c7Test : TestCase :=
  { file := "ok.spec.ts", title := "fine",
    titlePath := ["", "chromium", "ok.spec.ts", "fine"],
    retries := 0, outcome := Outcome.expected, annotations := [] }

def c7Result : TestResult :=
  { status := TStatus.passed, duration := 2, retry := 0, error := none,
    attachments := [] }

/-- The interrupted run of the C7 counterexample: its single test passes,
then the host reports the run as interrupted. -/
def c7Run : RunState :=
  runEvents (initState false [c7Test] 1)
    [Event.testEnd c7Test c7Result 2, Event.runEnd FullStatus.interrupted 3]

/-- A failure block that prints its error/stack (printEntry with skipError
false). -/
def isFullEntry : FailureBlock → Bool
  | FailureBlock.entry _ false _ => true
  | _ => false

/-- An attachments-only sub-block (printEntry with skipError true). -/
def isSubEntry : FailureBlock → Bool
  | FailureBlock.entry _ true _ => true
  | _ => false

def c6f0 : FailedTest :=
  { filePath := "dup.spec.ts",
    titlePath := ["", "chromium", "Suite", "same test"],
    error := some { message := some "boom", stack := none },
    unexpectedPass := false, consoleErrors := some "console noise",
    networkFailures := none }

def c6f1 : FailedTest :=
  { filePath := "dup.spec.ts",
    titlePath := ["", "firefox", "Suite", "same test"],
    error := some { message := some "boom", stack := none },
    unexpectedPass := false, consoleErrors := none,
    networkFailures := none }

/-- Every stored SpecStats carries its own map key as filePath. -/
def pathInvP (st : RunState) : Prop :=
  ∀ fp spec, mapGet st.specStats fp = some spec → spec.filePath = fp

/-- The flush-accounting invariant: unknown files are never flushed; a known
file has been flushed exactly once iff its endedAt stamp is set, belongs to
specOrder, has at least one discovered test, and a set stamp implies at
least one completed test. -/
def flushInvP (st : RunState) : Prop :=
  (∀ fp, mapGet st.specStats fp = none → flushCount st fp = 0) ∧
  (∀ fp spec, mapGet st.specStats fp = some spec →
    spec.filePath = fp ∧ fp ∈ st.specOrder ∧ 1 ≤ spec.total ∧
    flushCount st fp = (if spec.endedAt = 0 then 0 else 1) ∧
    (spec.endedAt ≠ 0 → 1 ≤ spec.completed))

/-- During the test phase a flushed spec has reached its total. -/
def phaseInvP (st : RunState) : Prop :=
  ∀ fp spec, mapGet st.specStats fp = some spec →
    spec.endedAt ≠ 0 → spec.total ≤ spec.completed

def c1Test : TestCase :=
  { file := "neverran-c1.spec.ts", title := "never runs",
    titlePath := ["", "chromium", "neverran-c1.spec.ts", "never runs"],
    retries := 0, outcome := Outcome.expected, annotations := [] }

/-- The single-spec run of the C1 counterexample: the spec is discovered but
no test event ever arrives before onEnd. -/
def c1Run : RunState :=
  runEvents (initState false [c1Test] 1) [Event.runEnd FullStatus.interrupted 2]

def c1wTest : TestCase :=
  { file := "one.spec.ts", title := "only",
    titlePath := ["", "chromium", "one.spec.ts", "only"],
    retries := 0, outcome := Outcome.expected, annotations := [] }

def c1wResult : TestResult :=
  { status := TStatus.passed, duration := 4, retry := 0, error := none,
    attachments := [] }

def c5Test : TestCase :=
  { file := "ghosted-c5.spec.ts", title := "never finishes",
    titlePath := ["", "chromium", "ghosted-c5.spec.ts", "never finishes"],
    retries := 0, outcome := Outcome.expected, annotations := [] }

/-- The C5 counterexample run: the spec saw a test-begin event but no test
of it ever finalized before onEnd. -/
def c5Run : RunState :=
  runEvents (initState false [c5Test] 1)
    [Event.testBegin c5Test 2, Event.runEnd FullStatus.interrupted 3]

def c5wT1 : TestCase :=
  { file := "partial.spec.ts", title := "first",
    titlePath := ["", "chromium", "partial.spec.ts", "first"],
    retries := 0, outcome := Outcome.expected, annotations := [] }

def c5wT2 : TestCase :=
  { file := "partial.spec.ts", title := "second",
    titlePath := ["", "chromium", "partial.spec.ts", "second"],
    retries := 0, outcome := Outcome.expected, annotations := [] }

def c5wRes : TestResult :=
  { status := TStatus.passed, duration := 8, retry := 0, error := none,
    attachments := [] }

/-- The half-completed spec state of the C5 witness run (one of two tests
finalized). -/
def c5wSpec : SpecStats :=
  { filePath := "partial.spec.ts", fileName := "partial.spec.ts",
    total := 2, completed := 1, passing := 1, failing := 0, flaky := 0,
    pending := 0, skipped := 0, startedAt := 0, endedAt := 0,
    videoPaths := [], screenshotPaths := [],
    testLines := ["    ✔ first (8ms)"] }

theorem mapGet_mapSet_self (m : List (String × SpecStats)) (k : String)
    (v : SpecStats) : mapGet (mapSet m k v) k = some v := by
  induction m with
  | nil => simp [mapSet, mapGet]
  | cons hd tl ih =>
    obtain ⟨k2, v2⟩ := hd
    by_cases h : k2 = k
    · simp [mapSet, mapGet, h]
    · simp [mapSet, mapGet, h, ih]

theorem mapGet_mapSet_ne (m : List (String × SpecStats)) (k fp : String)
    (v : SpecStats) (h : fp ≠ k) : mapGet (mapSet m k v) fp = mapGet m fp := by
  have hk : ¬ k = fp := fun hh => h hh.symm
  induction m with
  | nil => simp [mapSet, mapGet, hk]
  | cons hd tl ih =>
    obtain ⟨k2, v2⟩ := hd
    by_cases h2 : k2 = k
    · subst h2
      simp [mapSet, mapGet, hk]
    · simp only [mapSet, mapGet, if_neg h2]
      by_cases h3 : k2 = fp
      · simp [mapGet, h3]
      · simp [mapGet, h3, ih]

theorem mapGet_map_mk (L : List String) (f : String → SpecStats) (fp : String) :
    mapGet (L.map (fun k => (k, f k))) fp =
      if fp ∈ L then some (f fp) else none := by
  induction L with
  | nil => simp [mapGet]
  | cons hd tl ih =>
    by_cases h : hd = fp
    · simp [mapGet, h]
    · simp [mapGet, h, ih, Ne.symm h]

theorem harvestOne_shape (sp : SpecStats) (a : Attachment) :
    ∃ xv xs, harvestOne sp a =
      { sp with videoPaths := xv, screenshotPaths := xs } := by
  unfold harvestOne
  split
  · split
    · exact ⟨_, _, rfl⟩
    · exact ⟨_, sp.screenshotPaths, rfl⟩
  · split
    · exact ⟨sp.videoPaths, _, rfl⟩
    · exact ⟨sp.videoPaths, sp.screenshotPaths, rfl⟩

theorem harvestAttachments_shape (sp : SpecStats) (l : List Attachment) :
    ∃ xv xs, harvestAttachments sp l =
      { sp with videoPaths := xv, screenshotPaths := xs } := by
  induction l generalizing sp with
  | nil => exact ⟨sp.videoPaths, sp.screenshotPaths, rfl⟩
  | cons a rest ih =>
    obtain ⟨xv1, xs1, h1⟩ := harvestOne_shape sp a
    obtain ⟨xv2, xs2, h2⟩ := ih (harvestOne sp a)
    refine ⟨xv2, xs2, ?_⟩
    have : harvestAttachments sp (a :: rest) = harvestAttachments (harvestOne sp a) rest := rfl
    rw [this, h2, h1]

theorem applySpecCounters_stable (sp : SpecStats) (b : Bucket) :
    (applySpecCounters sp b).filePath = sp.filePath ∧
    (applySpecCounters sp b).fileName = sp.fileName ∧
    (applySpecCounters sp b).total = sp.total ∧
    (applySpecCounters sp b).completed = sp.completed ∧
    (applySpecCounters sp b).startedAt = sp.startedAt ∧
    (applySpecCounters sp b).endedAt = sp.endedAt ∧
    (applySpecCounters sp b).testLines = sp.testLines ∧
    (applySpecCounters sp b).videoPaths = sp.videoPaths ∧
    (applySpecCounters sp b).screenshotPaths = sp.screenshotPaths := by
  cases b <;> simp [applySpecCounters]

theorem applySpecCounters_sum (sp : SpecStats) (b : Bucket) :
    (applySpecCounters sp b).passing + (applySpecCounters sp b).failing +
      (applySpecCounters sp b).pending + (applySpecCounters sp b).skipped =
    sp.passing + sp.failing + sp.pending + sp.skipped + 1 := by
  cases b <;> simp [applySpecCounters] <;> omega

theorem applySpecCounters_flaky_le (sp : SpecStats) (b : Bucket)
    (h : sp.flaky ≤ sp.passing) :
    (applySpecCounters sp b).flaky ≤ (applySpecCounters sp b).passing := by
  cases b <;> simp [applySpecCounters] <;> omega

/-- The spec value after a finalized event, as a record update of the old
one (videoPaths/screenshotPaths abstracted). -/
theorem specAfterEnd_shape (u : Bool) (sp : SpecStats) (t : TestCase)
    (r : TestResult) :
    ∃ xv xs, specAfterEnd u sp t r =
      { applySpecCounters { sp with completed := sp.completed + 1 } (bucketOf t r) with
        testLines := sp.testLines ++ [testLineFor u t r]
        videoPaths := xv
        screenshotPaths := xs } := by
  unfold specAfterEnd
  obtain ⟨xv, xs, h⟩ := harvestAttachments_shape
    { applySpecCounters { sp with completed := sp.completed + 1 } (bucketOf t r) with
      testLines := (applySpecCounters { sp with completed := sp.completed + 1 }
        (bucketOf t r)).testLines ++ [testLineFor u t r] } r.attachments
  refine ⟨xv, xs, ?_⟩
  rw [h]
  have hst := applySpecCounters_stable { sp with completed := sp.completed + 1 } (bucketOf t r)
  simp only [hst.2.2.2.2.2.2.1]

theorem specAfterEnd_proj (u : Bool) (sp : SpecStats) (t : TestCase)
    (r : TestResult) :
    (specAfterEnd u sp t r).filePath = sp.filePath ∧
    (specAfterEnd u sp t r).fileName = sp.fileName ∧
    (specAfterEnd u sp t r).total = sp.total ∧
    (specAfterEnd u sp t r).completed = sp.completed + 1 ∧
    (specAfterEnd u sp t r).startedAt = sp.startedAt ∧
    (specAfterEnd u sp t r).endedAt = sp.endedAt ∧
    (specAfterEnd u sp t r).testLines = sp.testLines ++ [testLineFor u t r] := by
  obtain ⟨xv, xs, h⟩ := specAfterEnd_shape u sp t r
  have hst := applySpecCounters_stable { sp with completed := sp.completed + 1 } (bucketOf t r)
  rw [h]
  refine ⟨?_, ?_, ?_, ?_, ?_, ?_, rfl⟩ <;> simp [hst.1, hst.2.1, hst.2.2.1,
    hst.2.2.2.1, hst.2.2.2.2.1, hst.2.2.2.2.2.1]

theorem specAfterEnd_sum (u : Bool) (sp : SpecStats) (t : TestCase)
    (r : TestResult) :
    (specAfterEnd u sp t r).passing + (specAfterEnd u sp t r).failing +
      (specAfterEnd u sp t r).pending + (specAfterEnd u sp t r).skipped =
    sp.passing + sp.failing + sp.pending + sp.skipped + 1 := by
  obtain ⟨xv, xs, h⟩ := specAfterEnd_shape u sp t r
  rw [h]
  simpa using applySpecCounters_sum { sp with completed := sp.completed + 1 } (bucketOf t r)

theorem specAfterEnd_flaky_le (u : Bool) (sp : SpecStats) (t : TestCase)
    (r : TestResult) (hle : sp.flaky ≤ sp.passing) :
    (specAfterEnd u sp t r).flaky ≤ (specAfterEnd u sp t r).passing := by
  obtain ⟨xv, xs, h⟩ := specAfterEnd_shape u sp t r
  rw [h]
  simpa using applySpecCounters_flaky_le
    { sp with completed := sp.completed + 1 } (bucketOf t r) (by simpa using hle)

theorem applyGlobal_stable (st : RunState) (b : Bucket) (rec : FailedTest) :
    (applyGlobal st b rec).useColor = st.useColor ∧
    (applyGlobal st b rec).totalTests = st.totalTests ∧
    (applyGlobal st b rec).startTime = st.startTime ∧
    (applyGlobal st b rec).specOrder = st.specOrder ∧
    (applyGlobal st b rec).specStats = st.specStats ∧
    (applyGlobal st b rec).displayedSpecStart = st.displayedSpecStart ∧
    (applyGlobal st b rec).tableFilenameWidth = st.tableFilenameWidth ∧
    (applyGlobal st b rec).tableRowWidth = st.tableRowWidth ∧
    (applyGlobal st b rec).output = st.output := by
  cases b <;> simp [applyGlobal]

theorem applyGlobal_failed (st : RunState) (b : Bucket) (rec : FailedTest) :
    (applyGlobal st b rec).failed =
      st.failed + (if b = Bucket.fail then 1 else 0) := by
  cases b <;> simp [applyGlobal]

theorem applyGlobal_failureDetails (st : RunState) (b : Bucket)
    (rec : FailedTest) :
    (applyGlobal st b rec).failureDetails =
      (if b = Bucket.fail then st.failureDetails ++ [rec] else st.failureDetails) := by
  cases b <;> simp [applyGlobal]

theorem printSpecResults_stable (st : RunState) (sp : SpecStats) :
    (printSpecResults st sp).useColor = st.useColor ∧
    (printSpecResults st sp).totalTests = st.totalTests ∧
    (printSpecResults st sp).passed = st.passed ∧
    (printSpecResults st sp).failed = st.failed ∧
    (printSpecResults st sp).pending = st.pending ∧
    (printSpecResults st sp).skipped = st.skipped ∧
    (printSpecResults st sp).flaky = st.flaky ∧
    (printSpecResults st sp).startTime = st.startTime ∧
    (printSpecResults st sp).failureDetails = st.failureDetails ∧
    (printSpecResults st sp).specOrder = st.specOrder ∧
    (printSpecResults st sp).specStats = st.specStats ∧
    (printSpecResults st sp).displayedSpecStart = st.displayedSpecStart ∧
    (printSpecResults st sp).tableFilenameWidth = st.tableFilenameWidth ∧
    (printSpecResults st sp).tableRowWidth = st.tableRowWidth := by
  simp [printSpecResults]

theorem applyGlobal_passed (st : RunState) (b : Bucket) (rec : FailedTest) :
    (applyGlobal st b rec).passed = st.passed +
      (if b = Bucket.pass ∨ b = Bucket.flakyPass then 1 else 0) := by
  cases b <;> simp [applyGlobal]

theorem applyGlobal_flaky (st : RunState) (b : Bucket) (rec : FailedTest) :
    (applyGlobal st b rec).flaky = st.flaky +
      (if b = Bucket.flakyPass then 1 else 0) := by
  cases b <;> simp [applyGlobal]

theorem applyGlobal_pending (st : RunState) (b : Bucket) (rec : FailedTest) :
    (applyGlobal st b rec).pending = st.pending +
      (if b = Bucket.pending then 1 else 0) := by
  cases b <;> simp [applyGlobal]

theorem applyGlobal_skipped (st : RunState) (b : Bucket) (rec : FailedTest) :
    (applyGlobal st b rec).skipped = st.skipped +
      (if b = Bucket.skip then 1 else 0) := by
  cases b <;> simp [applyGlobal]

theorem printSpecResults_output (st : RunState) (sp : SpecStats) :
    (printSpecResults st sp).output = st.output ++
      [OutEvent.specResults sp
        (jsIndexOf st.specOrder sp.filePath + 1)
        (formatSecondsText ((sp.endedAt : Int) - (sp.startedAt : Int)))
        (renderFailureBlocks (st.failureDetails.filter
          (fun f => f.filePath == sp.filePath)))] := by
  simp [printSpecResults]

/-- Full characterization of onTestEnd on a final attempt for a known file:
run-level fields, counter deltas by bucket, the failure record append, the
spec replacement, and the flush-on-completion output. -/
theorem onTestEnd_final_char (st : RunState) (t : TestCase) (r : TestResult)
    (n : Nat) (spec : SpecStats) (hg : mapGet st.specStats t.file = some spec)
    (hf : isFinalAttempt t r = true) :
    (onTestEnd st t r n).useColor = st.useColor ∧
    (onTestEnd st t r n).totalTests = st.totalTests ∧
    (onTestEnd st t r n).startTime = st.startTime ∧
    (onTestEnd st t r n).specOrder = st.specOrder ∧
    (onTestEnd st t r n).displayedSpecStart = st.displayedSpecStart ∧
    (onTestEnd st t r n).tableFilenameWidth = st.tableFilenameWidth ∧
    (onTestEnd st t r n).tableRowWidth = st.tableRowWidth ∧
    (onTestEnd st t r n).passed = st.passed +
      (if bucketOf t r = Bucket.pass ∨ bucketOf t r = Bucket.flakyPass then 1 else 0) ∧
    (onTestEnd st t r n).flaky = st.flaky +
      (if bucketOf t r = Bucket.flakyPass then 1 else 0) ∧
    (onTestEnd st t r n).pending = st.pending +
      (if bucketOf t r = Bucket.pending then 1 else 0) ∧
    (onTestEnd st t r n).skipped = st.skipped +
      (if bucketOf t r = Bucket.skip then 1 else 0) ∧
    (onTestEnd st t r n).failed = st.failed +
      (if bucketOf t r = Bucket.fail then 1 else 0) ∧
    (onTestEnd st t r n).failureDetails =
      (if bucketOf t r = Bucket.fail then
        st.failureDetails ++ [mkFailureRecord t r] else st.failureDetails) ∧
    (((specAfterEnd st.useColor spec t r).completed ≠
        (specAfterEnd st.useColor spec t r).total ∧
      (onTestEnd st t r n).specStats =
        mapSet st.specStats t.file (specAfterEnd st.useColor spec t r) ∧
      (onTestEnd st t r n).output = st.output) ∨
     ((specAfterEnd st.useColor spec t r).completed =
        (specAfterEnd st.useColor spec t r).total ∧
      (onTestEnd st t r n).specStats = mapSet st.specStats t.file
        { specAfterEnd st.useColor spec t r with endedAt := n } ∧
      ∃ i d bl, (onTestEnd st t r n).output = st.output ++
        [OutEvent.specResults
          { specAfterEnd st.useColor spec t r with endedAt := n } i d bl])) := by
  have hps := fun (st2 : RunState) (sp2 : SpecStats) => printSpecResults_stable st2 sp2
  have hag := applyGlobal_stable st (bucketOf t r) (mkFailureRecord t r)
  unfold onTestEnd
  rw [hg]
  simp only [if_pos hf]
  by_cases hc : (specAfterEnd st.useColor spec t r).completed =
      (specAfterEnd st.useColor spec t r).total
  · simp only [if_pos hc]
    refine ⟨?_, ?_, ?_, ?_, ?_, ?_, ?_, ?_, ?_, ?_, ?_, ?_, ?_, Or.inr ⟨hc, ?_, ?_⟩⟩
    · simp [printSpecResults, hag.1]
    · simp [printSpecResults, hag.2.1]
    · simp [printSpecResults, hag.2.2.1]
    · simp [printSpecResults, hag.2.2.2.1]
    · simp [printSpecResults, hag.2.2.2.2.2.1]
    · simp [printSpecResults, hag.2.2.2.2.2.2.1]
    · simp [printSpecResults, hag.2.2.2.2.2.2.2.1]
    · simp [printSpecResults, applyGlobal_passed]
    · simp [printSpecResults, applyGlobal_flaky]
    · simp [printSpecResults, applyGlobal_pending]
    · simp [printSpecResults, applyGlobal_skipped]
    · simp [printSpecResults, applyGlobal_failed]
    · simp [printSpecResults, applyGlobal_failureDetails]
    · simp [printSpecResults, hag.2.2.2.2.1]
    · exact ⟨_, _, _, by
        simp only [printSpecResults_output, hag.2.2.2.2.2.2.2.2]
        simp [printSpecResults, hag.2.2.2.2.2.2.2.2]
        exact ⟨rfl, rfl, rfl⟩⟩
  · simp only [if_neg hc]
    refine ⟨?_, ?_, ?_, ?_, ?_, ?_, ?_, ?_, ?_, ?_, ?_, ?_, ?_,
      Or.inl ⟨hc, ?_, ?_⟩⟩
    · simp [hag.1]
    · simp [hag.2.1]
    · simp [hag.2.2.1]
    · simp [hag.2.2.2.1]
    · simp [hag.2.2.2.2.2.1]
    · simp [hag.2.2.2.2.2.2.1]
    · simp [hag.2.2.2.2.2.2.2.1]
    · simp [applyGlobal_passed]
    · simp [applyGlobal_flaky]
    · simp [applyGlobal_pending]
    · simp [applyGlobal_skipped]
    · simp [applyGlobal_failed]
    · simp [applyGlobal_failureDetails]
    · simp [hag.2.2.2.2.1]
    · simp [hag.2.2.2.2.2.2.2.2]

theorem onTestEnd_unknown (st : RunState) (t : TestCase) (r : TestResult)
    (n : Nat) (h : mapGet st.specStats t.file = none) :
    onTestEnd st t r n = st := by
  unfold onTestEnd
  rw [h]

theorem onTestEnd_not_final (st : RunState) (t : TestCase) (r : TestResult)
    (n : Nat) (h : isFinalAttempt t r = false) : onTestEnd st t r n = st := by
  unfold onTestEnd
  cases hg : mapGet st.specStats t.file with
  | none => rfl
  | some spec => simp [h]

theorem onTestBegin_stable (st : RunState) (t : TestCase) (n : Nat) :
    (onTestBegin st t n).useColor = st.useColor ∧
    (onTestBegin st t n).totalTests = st.totalTests ∧
    (onTestBegin st t n).passed = st.passed ∧
    (onTestBegin st t n).failed = st.failed ∧
    (onTestBegin st t n).pending = st.pending ∧
    (onTestBegin st t n).skipped = st.skipped ∧
    (onTestBegin st t n).flaky = st.flaky ∧
    (onTestBegin st t n).startTime = st.startTime ∧
    (onTestBegin st t n).failureDetails = st.failureDetails ∧
    (onTestBegin st t n).specOrder = st.specOrder ∧
    (onTestBegin st t n).tableFilenameWidth = st.tableFilenameWidth ∧
    (onTestBegin st t n).tableRowWidth = st.tableRowWidth ∧
    (onTestBegin st t n).output = st.output := by
  unfold onTestBegin
  cases hg : mapGet st.specStats t.file with
  | none => simp
  | some spec =>
    by_cases hm : t.file ∈ st.displayedSpecStart <;> simp [hm]

theorem onTestBegin_mapGet (st : RunState) (t : TestCase) (n : Nat)
    (fp : String) :
    mapGet (onTestBegin st t n).specStats fp = mapGet st.specStats fp ∨
    (fp = t.file ∧ ∃ spec, mapGet st.specStats fp = some spec ∧
      mapGet (onTestBegin st t n).specStats fp =
        some { spec with startedAt := n }) := by
  unfold onTestBegin
  cases hg : mapGet st.specStats t.file with
  | none => exact Or.inl rfl
  | some spec =>
    by_cases hm : t.file ∈ st.displayedSpecStart
    · simp [hm]
    · by_cases hfp : fp = t.file
      · subst hfp
        by_cases hz : spec.startedAt = 0
        · right
          refine ⟨rfl, spec, hg, ?_⟩
          simp [hm, hz, mapGet_mapSet_self]
        · left
          simp [hm, hz, mapGet_mapSet_self, hg]
      · left
        simp only [onTestBegin, hg, if_neg hm]
        exact mapGet_mapSet_ne st.specStats t.file fp _ hfp

theorem flushStep_stable (n : Nat) (acc : RunState) (fp : String) :
    (flushStep n acc fp).useColor = acc.useColor ∧
    (flushStep n acc fp).totalTests = acc.totalTests ∧
    (flushStep n acc fp).passed = acc.passed ∧
    (flushStep n acc fp).failed = acc.failed ∧
    (flushStep n acc fp).pending = acc.pending ∧
    (flushStep n acc fp).skipped = acc.skipped ∧
    (flushStep n acc fp).flaky = acc.flaky ∧
    (flushStep n acc fp).startTime = acc.startTime ∧
    (flushStep n acc fp).failureDetails = acc.failureDetails ∧
    (flushStep n acc fp).specOrder = acc.specOrder ∧
    (flushStep n acc fp).displayedSpecStart = acc.displayedSpecStart ∧
    (flushStep n acc fp).tableFilenameWidth = acc.tableFilenameWidth ∧
    (flushStep n acc fp).tableRowWidth = acc.tableRowWidth := by
  unfold flushStep
  cases hg : mapGet acc.specStats fp with
  | none => simp
  | some spec =>
    by_cases hcond : 0 < spec.completed ∧ spec.endedAt = 0 <;>
      simp [hcond, printSpecResults]

theorem flushStep_mapGet (n : Nat) (acc : RunState) (fp fp2 : String) :
    (mapGet (flushStep n acc fp).specStats fp2 = mapGet acc.specStats fp2 ∧
      (flushStep n acc fp).output = acc.output) ∨
    (fp2 = fp ∧ ∃ spec, mapGet acc.specStats fp2 = some spec ∧
      0 < spec.completed ∧ spec.endedAt = 0 ∧
      mapGet (flushStep n acc fp).specStats fp2 =
        some { spec with endedAt := n } ∧
      ∃ i d bl, (flushStep n acc fp).output = acc.output ++
        [OutEvent.specResults { spec with endedAt := n } i d bl]) ∨
    ((fp2 ≠ fp) ∧ mapGet (flushStep n acc fp).specStats fp2 = mapGet acc.specStats fp2 ∧
      ∃ spec, mapGet acc.specStats fp = some spec ∧
      0 < spec.completed ∧ spec.endedAt = 0 ∧
      ∃ i d bl, (flushStep n acc fp).output = acc.output ++
        [OutEvent.specResults { spec with endedAt := n } i d bl]) := by
  cases hg : mapGet acc.specStats fp with
  | none =>
    left
    constructor <;> simp [flushStep, hg]
  | some spec =>
    by_cases hcond : 0 < spec.completed ∧ spec.endedAt = 0
    · by_cases hfp : fp2 = fp
      · subst hfp
        right; left
        refine ⟨rfl, spec, hg, hcond.1, hcond.2, ?_, ?_⟩
        · simp [flushStep, hg, hcond, printSpecResults, mapGet_mapSet_self]
        · exact ⟨jsIndexOf acc.specOrder spec.filePath + 1,
            formatSecondsText ((n : Int) - (spec.startedAt : Int)),
            renderFailureBlocks (acc.failureDetails.filter
              (fun f => f.filePath == spec.filePath)),
            by simp [flushStep, hg, hcond, printSpecResults]⟩
      · right; right
        refine ⟨hfp, ?_, spec, rfl, hcond.1, hcond.2, ?_⟩
        · simp only [flushStep, hg, if_pos hcond, printSpecResults]
          exact mapGet_mapSet_ne acc.specStats fp fp2 _ hfp
        · exact ⟨jsIndexOf acc.specOrder spec.filePath + 1,
            formatSecondsText ((n : Int) - (spec.startedAt : Int)),
            renderFailureBlocks (acc.failureDetails.filter
              (fun f => f.filePath == spec.filePath)),
            by simp [flushStep, hg, hcond, printSpecResults]⟩
    · left
      constructor <;> simp [flushStep, hg, hcond]

theorem foldl_max_eq_max (a : Nat) (l : List Nat) :
    l.foldl max a = max a (l.foldr max 0) := by
  induction l generalizing a with
  | nil => simp
  | cons x rest ih =>
    simp only [List.foldl_cons, List.foldr_cons, ih]
    exact max_assoc a x _

/-- C8: a test-end event for an unknown file (no matching SpecState entry)
is a strict no-op — no error is raised and the whole RunState (counters,
per-spec state, failure details, and output) is unchanged. -/
theorem c8_unknown_file_noop (st : RunState) (t : TestCase) (r : TestResult)
    (n : Nat) (h : mapGet st.specStats t.file = none) :
    onTestEnd st t r n = st :=
  onTestEnd_unknown st t r n h

/-- Witness for C8: a concrete test-end event for a file that was never
discovered leaves the begin-state untouched. -/
theorem c8_unknown_file_noop_witness :
    onTestEnd (initState true [] 7) c8Test c8Result 9 = initState true [] 7 :=
  c8_unknown_file_noop (initState true [] 7) c8Test c8Result 9 rfl

/-- C9: the filename column width computed at onBegin is the larger of the
floor 20 and the longest filename length; truncation leaves names within the
width unchanged and maps longer names to exactly width characters ending in
a single appended ellipsis. -/
theorem c9_filename_width_and_truncate :
    (∀ (u : Bool) (allTests : List TestCase) (n0 : Nat),
      (initState u allTests n0).tableFilenameWidth =
        max 20 (((buildSpecOrder allTests).map
          (fun fp => (getFileName fp).length)).foldr max 0)) ∧
    (∀ (value : String) (w : Nat), value.length ≤ w →
      truncate value w = value) ∧
    (∀ (value : String) (w : Nat), 1 ≤ w → w < value.length →
      (truncate value w).length = w ∧
      (truncate value w).data = value.data.take (w - 1) ++ ['…']) := by
  refine ⟨?_, ?_, ?_⟩
  · intro u allTests n0
    show longestFileName (buildSpecOrder allTests) = _
    unfold longestFileName
    exact foldl_max_eq_max 20 _
  · intro value w h
    unfold truncate
    rw [if_pos h]
  · intro value w h1 h2
    have hnle : ¬ value.length ≤ w := by omega
    have hdata : value.length = value.data.length := rfl
    constructor
    · show (truncate value w).length = w
      unfold truncate
      rw [if_neg hnle]
      show (value.data.take (w - 1) ++ ['…']).length = w
      rw [List.length_append, List.length_take]
      simp only [List.length_singleton]
      omega
    · unfold truncate
      rw [if_neg hnle]

/-- Witness for C9 at concrete filenames: a short name is left alone, a
39-character name truncated to width 20 has length 20 and ends in the
ellipsis, and a begin state computes the floor/longest maximum. -/
theorem c9_filename_width_and_truncate_witness :
    truncate "short.spec.ts" 20 = "short.spec.ts" ∧
    ((truncate "a-very-long-spec-filename-here.spec.ts" 20).length = 20 ∧
      (truncate "a-very-long-spec-filename-here.spec.ts" 20).data =
        ("a-very-long-spec-filename-here.spec.ts").data.take 19 ++ ['…']) ∧
    (initState false [c8Test] 3).tableFilenameWidth =
      max 20 (((buildSpecOrder [c8Test]).map
        (fun fp => (getFileName fp).length)).foldr max 0) :=
  ⟨c9_filename_width_and_truncate.2.1 "short.spec.ts" 20 (by decide),
   c9_filename_width_and_truncate.2.2 "a-very-long-spec-filename-here.spec.ts"
     20 (by decide) (by decide),
   c9_filename_width_and_truncate.1 false [c8Test] 3⟩

/-- C3: the final-attempt predicate is exactly last-configured-retry, or
outcome already expected, or status neither failed nor timedOut and not an
unexpected pass; non-final attempts change nothing at all; and the 2-retry
fail/fail/pass scenario records exactly one finalization, classified Flaky,
with global passed incremented once and failed not incremented. -/
theorem c3_retry_finalization :
    (∀ (t : TestCase) (r : TestResult),
      isFinalAttempt t r =
        (r.retry == t.retries || t.outcome == Outcome.expected ||
          (r.status != TStatus.failed && r.status != TStatus.timedOut &&
            !(r.status == TStatus.passed && t.outcome == Outcome.unexpected)))) ∧
    (∀ (st : RunState) (t : TestCase) (r : TestResult) (n : Nat),
      isFinalAttempt t r = false → onTestEnd st t r n = st) ∧
    (c3Run.passed = 1 ∧ c3Run.failed = 0 ∧ c3Run.flaky = 1 ∧
      (mapGet c3Run.specStats "retry.spec.ts").map
        (fun spec => (spec.completed, spec.passing, spec.failing, spec.flaky,
          spec.testLines.length)) = some (1, 1, 0, 1, 1)) := by
  refine ⟨fun t r => rfl, onTestEnd_not_final, ?_⟩
  decide

/-- Witness for C3: the first failed attempt of the scenario is non-final
and leaves the state untouched. -/
theorem c3_retry_finalization_witness :
    onTestEnd (initState false [c3TestAttempt Outcome.unexpected] 10)
      (c3TestAttempt Outcome.unexpected) (c3FailResult 0) 11 =
      initState false [c3TestAttempt Outcome.unexpected] 10 :=
  c3_retry_finalization.2.1 _ (c3TestAttempt Outcome.unexpected)
    (c3FailResult 0) 11 (by decide)

theorem specAfterEnd_buckets (u : Bool) (sp : SpecStats) (t : TestCase)
    (r : TestResult) :
    (specAfterEnd u sp t r).passing = sp.passing +
      (if bucketOf t r = Bucket.pass ∨ bucketOf t r = Bucket.flakyPass then 1 else 0) ∧
    (specAfterEnd u sp t r).failing = sp.failing +
      (if bucketOf t r = Bucket.fail then 1 else 0) ∧
    (specAfterEnd u sp t r).flaky = sp.flaky +
      (if bucketOf t r = Bucket.flakyPass then 1 else 0) ∧
    (specAfterEnd u sp t r).pending = sp.pending +
      (if bucketOf t r = Bucket.pending then 1 else 0) ∧
    (specAfterEnd u sp t r).skipped = sp.skipped +
      (if bucketOf t r = Bucket.skip then 1 else 0) := by
  obtain ⟨xv, xs, h⟩ := specAfterEnd_shape u sp t r
  rw [h]
  cases hb : bucketOf t r <;> simp [applySpecCounters]

/-- The spec entry stored for the file after a finalized event, with all
counter and line fields equal to those of specAfterEnd. -/
theorem onTestEnd_entry (st : RunState) (t : TestCase) (r : TestResult)
    (n : Nat) (spec : SpecStats) (hg : mapGet st.specStats t.file = some spec)
    (hf : isFinalAttempt t r = true) :
    ∃ sp2, mapGet (onTestEnd st t r n).specStats t.file = some sp2 ∧
      sp2.completed = (specAfterEnd st.useColor spec t r).completed ∧
      sp2.passing = (specAfterEnd st.useColor spec t r).passing ∧
      sp2.failing = (specAfterEnd st.useColor spec t r).failing ∧
      sp2.flaky = (specAfterEnd st.useColor spec t r).flaky ∧
      sp2.pending = (specAfterEnd st.useColor spec t r).pending ∧
      sp2.skipped = (specAfterEnd st.useColor spec t r).skipped ∧
      sp2.testLines = (specAfterEnd st.useColor spec t r).testLines ∧
      sp2.total = (specAfterEnd st.useColor spec t r).total := by
  obtain ⟨_, _, _, _, _, _, _, _, _, _, _, _, _, hdisj⟩ :=
    onTestEnd_final_char st t r n spec hg hf
  rcases hdisj with ⟨_, hset, _⟩ | ⟨_, hset, _⟩
  · exact ⟨specAfterEnd st.useColor spec t r,
      by rw [hset]; exact mapGet_mapSet_self _ _ _,
      rfl, rfl, rfl, rfl, rfl, rfl, rfl, rfl⟩
  · exact ⟨{ specAfterEnd st.useColor spec t r with endedAt := n },
      by rw [hset]; exact mapGet_mapSet_self _ _ _,
      rfl, rfl, rfl, rfl, rfl, rfl, rfl, rfl⟩

/-- C4: every finalized test is classified into exactly one bucket by the
priority cascade expected then flaky then skipped-status then failure;
expected gives Passed with the "(expected failure)" suffix exactly when the
raw status was failed and no FailureRecord; flaky gives Passed plus Flaky;
a skipped status gives Pending under a fixme annotation and Skipped
otherwise; everything else gives Failed and appends exactly one
FailureRecord. -/
theorem c4_outcome_classification (st : RunState) (t : TestCase)
    (r : TestResult) (n : Nat) (spec : SpecStats)
    (hg : mapGet st.specStats t.file = some spec)
    (hf : isFinalAttempt t r = true) :
    ∃ sp2, mapGet (onTestEnd st t r n).specStats t.file = some sp2 ∧
      sp2.completed = spec.completed + 1 ∧
      sp2.testLines = spec.testLines ++ [testLineFor st.useColor t r] ∧
      sp2.passing + sp2.failing + sp2.pending + sp2.skipped =
        spec.passing + spec.failing + spec.pending + spec.skipped + 1 ∧
      (t.outcome = Outcome.expected →
        (onTestEnd st t r n).passed = st.passed + 1 ∧
        (onTestEnd st t r n).failed = st.failed ∧
        (onTestEnd st t r n).failureDetails = st.failureDetails ∧
        sp2.passing = spec.passing + 1 ∧ sp2.failing = spec.failing ∧
        testLineFor st.useColor t r =
          (if r.status == TStatus.failed then
            green st.useColor ("    ✔ " ++ t.title ++ " (" ++
              formatDuration r.duration ++ ") (expected failure)")
          else
            green st.useColor ("    ✔ " ++ t.title ++ " (" ++
              formatDuration r.duration ++ ")"))) ∧
      (t.outcome = Outcome.flaky →
        (onTestEnd st t r n).passed = st.passed + 1 ∧
        (onTestEnd st t r n).flaky = st.flaky + 1 ∧
        (onTestEnd st t r n).failed = st.failed ∧
        (onTestEnd st t r n).failureDetails = st.failureDetails ∧
        sp2.passing = spec.passing + 1 ∧ sp2.flaky = spec.flaky + 1) ∧
      (t.outcome ≠ Outcome.expected → t.outcome ≠ Outcome.flaky →
        r.status = TStatus.skipped →
        ((isFixme t = true →
          (onTestEnd st t r n).pending = st.pending + 1 ∧
          (onTestEnd st t r n).failed = st.failed ∧
          (onTestEnd st t r n).failureDetails = st.failureDetails ∧
          sp2.pending = spec.pending + 1) ∧
         (isFixme t = false →
          (onTestEnd st t r n).skipped = st.skipped + 1 ∧
          (onTestEnd st t r n).failed = st.failed ∧
          (onTestEnd st t r n).failureDetails = st.failureDetails ∧
          sp2.skipped = spec.skipped + 1))) ∧
      (t.outcome ≠ Outcome.expected → t.outcome ≠ Outcome.flaky →
        r.status ≠ TStatus.skipped →
        (onTestEnd st t r n).failed = st.failed + 1 ∧
        (onTestEnd st t r n).failureDetails =
          st.failureDetails ++ [mkFailureRecord t r] ∧
        sp2.failing = spec.failing + 1) := by
  obtain ⟨_, _, _, _, _, _, _, hpassed, hflaky, hpending, hskipped, hfailed,
    hdetails, _⟩ := onTestEnd_final_char st t r n spec hg hf
  obtain ⟨sp2, hgot, e1, e2, e3, e4, e5, e6, e7, e8⟩ :=
    onTestEnd_entry st t r n spec hg hf
  have hbk := specAfterEnd_buckets st.useColor spec t r
  have hproj := specAfterEnd_proj st.useColor spec t r
  have hsum := specAfterEnd_sum st.useColor spec t r
  refine ⟨sp2, hgot, ?_, ?_, ?_, ?_, ?_, ?_, ?_⟩
  · rw [e1, hproj.2.2.2.1]
  · rw [e7, hproj.2.2.2.2.2.2]
  · rw [e2, e3, e5, e6]
    omega
  · intro ho
    have hb : bucketOf t r = Bucket.pass := by simp [bucketOf, ho]
    refine ⟨?_, ?_, ?_, ?_, ?_, ?_⟩
    · rw [hpassed, hb]; simp
    · rw [hfailed, hb]; simp
    · rw [hdetails, hb]; simp
    · rw [e2, hbk.1, hb]; simp
    · rw [e3, hbk.2.1, hb]; simp
    · simp [testLineFor, hb]
  · intro ho
    have hb : bucketOf t r = Bucket.flakyPass := by simp [bucketOf, ho]
    refine ⟨?_, ?_, ?_, ?_, ?_, ?_⟩
    · rw [hpassed, hb]; simp
    · rw [hflaky, hb]; simp
    · rw [hfailed, hb]; simp
    · rw [hdetails, hb]; simp
    · rw [e2, hbk.1, hb]; simp
    · rw [e4, hbk.2.2.1, hb]; simp
  · intro ho1 ho2 hstat
    constructor
    · intro hfix
      have hb : bucketOf t r = Bucket.pending := by
        simp [bucketOf, ho1, ho2, hstat, hfix]
      refine ⟨?_, ?_, ?_, ?_⟩
      · rw [hpending, hb]; simp
      · rw [hfailed, hb]; simp
      · rw [hdetails, hb]; simp
      · rw [e5, hbk.2.2.2.1, hb]; simp
    · intro hfix
      have hb : bucketOf t r = Bucket.skip := by
        simp [bucketOf, ho1, ho2, hstat, hfix]
      refine ⟨?_, ?_, ?_, ?_⟩
      · rw [hskipped, hb]; simp
      · rw [hfailed, hb]; simp
      · rw [hdetails, hb]; simp
      · rw [e6, hbk.2.2.2.2, hb]; simp
  · intro ho1 ho2 hstat
    have hb : bucketOf t r = Bucket.fail := by
      simp [bucketOf, ho1, ho2, hstat]
    refine ⟨?_, ?_, ?_⟩
    · rw [hfailed, hb]; simp
    · rw [hdetails, hb]; simp
    · rw [e3, hbk.2.1, hb]; simp

/-- Witness for C4: a deliberately failing test with outcome expected is
counted as passed, creates no failure record, and its line carries the
"(expected failure)" suffix. -/
theorem c4_outcome_classification_witness :
    (onTestEnd c4St c4Test c4Result 2).passed = c4St.passed + 1 ∧
    (onTestEnd c4St c4Test c4Result 2).failed = c4St.failed ∧
    (onTestEnd c4St c4Test c4Result 2).failureDetails = c4St.failureDetails ∧
    testLineFor c4St.useColor c4Test c4Result =
      "    ✔ deliberate (5ms) (expected failure)" := by
  obtain ⟨sp2, hgot, hcomp, hlines, hsum, hexp, hflk, hskp, hfl⟩ :=
    c4_outcome_classification c4St c4Test c4Result 2
      (mkSpec "fail-ok.spec.ts" 1) (by decide) (by decide)
  have h := hexp rfl
  refine ⟨h.1, h.2.1, h.2.2.1, ?_⟩
  rw [h.2.2.2.2.2]
  decide

theorem flushLoop_stable (n : Nat) (L : List String) (st : RunState) :
    (L.foldl (flushStep n) st).useColor = st.useColor ∧
    (L.foldl (flushStep n) st).totalTests = st.totalTests ∧
    (L.foldl (flushStep n) st).passed = st.passed ∧
    (L.foldl (flushStep n) st).failed = st.failed ∧
    (L.foldl (flushStep n) st).pending = st.pending ∧
    (L.foldl (flushStep n) st).skipped = st.skipped ∧
    (L.foldl (flushStep n) st).flaky = st.flaky ∧
    (L.foldl (flushStep n) st).startTime = st.startTime ∧
    (L.foldl (flushStep n) st).failureDetails = st.failureDetails ∧
    (L.foldl (flushStep n) st).specOrder = st.specOrder ∧
    (L.foldl (flushStep n) st).displayedSpecStart = st.displayedSpecStart ∧
    (L.foldl (flushStep n) st).tableFilenameWidth = st.tableFilenameWidth ∧
    (L.foldl (flushStep n) st).tableRowWidth = st.tableRowWidth := by
  induction L generalizing st with
  | nil =>
    exact ⟨rfl, rfl, rfl, rfl, rfl, rfl, rfl, rfl, rfl, rfl, rfl, rfl, rfl⟩
  | cons a L ih =>
    rw [List.foldl_cons]
    obtain ⟨a1, a2, a3, a4, a5, a6, a7, a8, a9, a10, a11, a12, a13⟩ :=
      ih (flushStep n st a)
    obtain ⟨b1, b2, b3, b4, b5, b6, b7, b8, b9, b10, b11, b12, b13⟩ :=
      flushStep_stable n st a
    exact ⟨a1.trans b1, a2.trans b2, a3.trans b3, a4.trans b4, a5.trans b5,
      a6.trans b6, a7.trans b7, a8.trans b8, a9.trans b9, a10.trans b10,
      a11.trans b11, a12.trans b12, a13.trans b13⟩

theorem flushPending_stable (st : RunState) (n : Nat) :
    (flushPending st n).useColor = st.useColor ∧
    (flushPending st n).totalTests = st.totalTests ∧
    (flushPending st n).passed = st.passed ∧
    (flushPending st n).failed = st.failed ∧
    (flushPending st n).pending = st.pending ∧
    (flushPending st n).skipped = st.skipped ∧
    (flushPending st n).flaky = st.flaky ∧
    (flushPending st n).startTime = st.startTime ∧
    (flushPending st n).failureDetails = st.failureDetails ∧
    (flushPending st n).specOrder = st.specOrder ∧
    (flushPending st n).displayedSpecStart = st.displayedSpecStart ∧
    (flushPending st n).tableFilenameWidth = st.tableFilenameWidth ∧
    (flushPending st n).tableRowWidth = st.tableRowWidth :=
  flushLoop_stable n st.specOrder st

theorem onEnd_specStats (st : RunState) (s : FullStatus) (n : Nat) :
    (onEnd st s n).specStats = (flushPending st n).specStats := rfl

theorem flushLoop_mapGet (n : Nat) (L : List String) (st : RunState)
    (fp : String) :
    mapGet (L.foldl (flushStep n) st).specStats fp = mapGet st.specStats fp ∨
    (∃ spec, mapGet st.specStats fp = some spec ∧
      mapGet (L.foldl (flushStep n) st).specStats fp =
        some { spec with endedAt := n }) := by
  induction L generalizing st with
  | nil => exact Or.inl rfl
  | cons a L ih =>
    rw [List.foldl_cons]
    have hstep := flushStep_mapGet n st a fp
    have hrest := ih (flushStep n st a)
    have hmid : mapGet (flushStep n st a).specStats fp = mapGet st.specStats fp ∨
        (∃ spec, mapGet st.specStats fp = some spec ∧
          mapGet (flushStep n st a).specStats fp = some { spec with endedAt := n }) := by
      rcases hstep with ⟨heq, _⟩ | ⟨hfpa, spec, hg, _, _, hset, _⟩ | ⟨_, heq, _⟩
      · exact Or.inl heq
      · exact Or.inr ⟨spec, hg, hset⟩
      · exact Or.inl heq
    rcases hrest with hr | ⟨spec2, hg2, hset2⟩
    · rcases hmid with hm | ⟨spec, hg, hset⟩
      · exact Or.inl (hr.trans hm)
      · exact Or.inr ⟨spec, hg, hr.trans hset⟩
    · rcases hmid with hm | ⟨spec, hg, hset⟩
      · exact Or.inr ⟨spec2, hm ▸ hg2, hset2⟩
      · rw [hset] at hg2
        injection hg2 with hg2
        refine Or.inr ⟨spec, hg, ?_⟩
        rw [hset2, ← hg2]

theorem flushPending_mapGet (st : RunState) (n : Nat) (fp : String) :
    mapGet (flushPending st n).specStats fp = mapGet st.specStats fp ∨
    (∃ spec, mapGet st.specStats fp = some spec ∧
      mapGet (flushPending st n).specStats fp =
        some { spec with endedAt := n }) :=
  flushLoop_mapGet n st.specOrder st fp

theorem step_failInv (st : RunState) (e : Event)
    (h : st.failed = st.failureDetails.length) :
    (step st e).failed = (step st e).failureDetails.length := by
  cases e with
  | testBegin t nn =>
    have hb := onTestBegin_stable st t nn
    show (onTestBegin st t nn).failed = (onTestBegin st t nn).failureDetails.length
    rw [hb.2.2.2.1, hb.2.2.2.2.2.2.2.2.1, h]
  | testEnd t r nn =>
    show (onTestEnd st t r nn).failed = (onTestEnd st t r nn).failureDetails.length
    cases hg : mapGet st.specStats t.file with
    | none => rw [onTestEnd_unknown st t r nn hg]; exact h
    | some spec =>
      by_cases hf : isFinalAttempt t r = true
      · obtain ⟨_, _, _, _, _, _, _, _, _, _, _, hfailed, hdetails, _⟩ :=
          onTestEnd_final_char st t r nn spec hg hf
        rw [hfailed, hdetails]
        by_cases hb : bucketOf t r = Bucket.fail <;> simp [hb, h]
      · rw [onTestEnd_not_final st t r nn (Bool.eq_false_iff.mpr hf)]
        exact h
  | runEnd s nn =>
    have hp := flushPending_stable st nn
    show (onEnd st s nn).failed = (onEnd st s nn).failureDetails.length
    show (flushPending st nn).failed = (flushPending st nn).failureDetails.length
    rw [hp.2.2.2.1, hp.2.2.2.2.2.2.2.2.1, h]

theorem runEvents_failInv (events : List Event) (st : RunState)
    (h : st.failed = st.failureDetails.length) :
    (runEvents st events).failed = (runEvents st events).failureDetails.length := by
  induction events generalizing st with
  | nil => exact h
  | cons e rest ih => exact ih (step st e) (step_failInv st e h)

/-- C10: the global failed counter always equals the number of accumulated
FailureRecords; a record is appended exactly when a finalized test falls in
the failure bucket, so expected/flaky/pending/skipped finalizations never
create one. -/
theorem c10_failed_equals_failure_records :
    (∀ (u : Bool) (allTests : List TestCase) (n0 : Nat) (events : List Event),
      (runEvents (initState u allTests n0) events).failed =
        (runEvents (initState u allTests n0) events).failureDetails.length) ∧
    (∀ (st : RunState) (t : TestCase) (r : TestResult) (n : Nat)
       (spec : SpecStats), mapGet st.specStats t.file = some spec →
      isFinalAttempt t r = true →
      ((bucketOf t r = Bucket.fail →
        (onTestEnd st t r n).failureDetails =
          st.failureDetails ++ [mkFailureRecord t r] ∧
        (onTestEnd st t r n).failed = st.failed + 1) ∧
       (bucketOf t r ≠ Bucket.fail →
        (onTestEnd st t r n).failureDetails = st.failureDetails ∧
        (onTestEnd st t r n).failed = st.failed))) := by
  constructor
  · intro u allTests n0 events
    exact runEvents_failInv events (initState u allTests n0) rfl
  · intro st t r n spec hg hf
    obtain ⟨_, _, _, _, _, _, _, _, _, _, _, hfailed, hdetails, _⟩ :=
      onTestEnd_final_char st t r n spec hg hf
    constructor
    · intro hb
      rw [hfailed, hdetails]
      simp [hb]
    · intro hb
      rw [hfailed, hdetails]
      simp [hb]

/-- Witness for C10: the invariant after a concrete failing run, and the
exact failure-record append on a concrete failing finalization. -/
theorem c10_failed_equals_failure_records_witness :
    (runEvents (initState false [c10Test] 4)
      [Event.testEnd c10Test c10Result 5]).failed =
      (runEvents (initState false [c10Test] 4)
        [Event.testEnd c10Test c10Result 5]).failureDetails.length ∧
    ((onTestEnd (initState false [c10Test] 4) c10Test c10Result 5).failureDetails =
      (initState false [c10Test] 4).failureDetails ++ [mkFailureRecord c10Test c10Result] ∧
     (onTestEnd (initState false [c10Test] 4) c10Test c10Result 5).failed =
      (initState false [c10Test] 4).failed + 1) :=
  ⟨c10_failed_equals_failure_records.1 false [c10Test] 4
      [Event.testEnd c10Test c10Result 5],
   (c10_failed_equals_failure_records.2 (initState false [c10Test] 4) c10Test
      c10Result 5 (mkSpec "boom.spec.ts" 1) (by decide) (by decide)).1 (by decide)⟩

theorem step_countInv (st : RunState) (e : Event) (h : countInvP st) :
    countInvP (step st e) := by
  cases e with
  | testBegin t nn =>
    show countInvP (onTestBegin st t nn)
    intro fp spec hg
    rcases onTestBegin_mapGet st t nn fp with heq | ⟨hfp, spec0, hg0, hset⟩
    · exact h fp spec (heq ▸ hg)
    · rw [hset] at hg
      injection hg with hg
      obtain ⟨hs, hfl⟩ := h fp spec0 hg0
      rw [← hg]
      exact ⟨hs, hfl⟩
  | testEnd t r nn =>
    show countInvP (onTestEnd st t r nn)
    intro fp spec hg
    cases hg0 : mapGet st.specStats t.file with
    | none =>
      rw [onTestEnd_unknown st t r nn hg0] at hg
      exact h fp spec hg
    | some spec0 =>
      by_cases hf : isFinalAttempt t r = true
      · obtain ⟨_, _, _, _, _, _, _, _, _, _, _, _, _, hdisj⟩ :=
          onTestEnd_final_char st t r nn spec0 hg0 hf
        by_cases hfp : fp = t.file
        · subst hfp
          have hsum := specAfterEnd_sum st.useColor spec0 t r
          have hproj := specAfterEnd_proj st.useColor spec0 t r
          have hfl := specAfterEnd_flaky_le st.useColor spec0 t r
            (h t.file spec0 hg0).2
          obtain ⟨hso, _⟩ := h t.file spec0 hg0
          rcases hdisj with ⟨_, hset, _⟩ | ⟨_, hset, _⟩
          · rw [hset, mapGet_mapSet_self] at hg
            injection hg with hg
            rw [← hg]
            exact ⟨by rw [hsum, hproj.2.2.2.1, hso], hfl⟩
          · rw [hset, mapGet_mapSet_self] at hg
            injection hg with hg
            rw [← hg]
            refine ⟨?_, hfl⟩
            show (specAfterEnd st.useColor spec0 t r).passing +
              (specAfterEnd st.useColor spec0 t r).failing +
              (specAfterEnd st.useColor spec0 t r).pending +
              (specAfterEnd st.useColor spec0 t r).skipped =
              (specAfterEnd st.useColor spec0 t r).completed
            rw [hsum, hproj.2.2.2.1, hso]
        · rcases hdisj with ⟨_, hset, _⟩ | ⟨_, hset, _⟩ <;>
            rw [hset, mapGet_mapSet_ne _ _ _ _ hfp] at hg <;>
            exact h fp spec hg
      · rw [onTestEnd_not_final st t r nn (Bool.eq_false_iff.mpr hf)] at hg
        exact h fp spec hg
  | runEnd s nn =>
    show countInvP (onEnd st s nn)
    intro fp spec hg
    rw [onEnd_specStats] at hg
    rcases flushPending_mapGet st nn fp with heq | ⟨spec0, hg0, hset⟩
    · exact h fp spec (heq ▸ hg)
    · rw [hset] at hg
      injection hg with hg
      obtain ⟨hs, hfl⟩ := h fp spec0 hg0
      rw [← hg]
      exact ⟨hs, hfl⟩

theorem runEvents_countInv (events : List Event) (st : RunState)
    (h : countInvP st) : countInvP (runEvents st events) := by
  induction events generalizing st with
  | nil => exact h
  | cons e rest ih => exact ih (step st e) (step_countInv st e h)

theorem initState_countInv (u : Bool) (allTests : List TestCase) (n0 : Nat) :
    countInvP (initState u allTests n0) := by
  intro fp spec hg
  rw [show (initState u allTests n0).specStats =
    (buildSpecOrder allTests).map
      (fun fp => (fp, mkSpec fp (countFile allTests fp))) from rfl,
    mapGet_map_mk] at hg
  by_cases hmem : fp ∈ buildSpecOrder allTests
  · rw [if_pos hmem] at hg
    injection hg with hg
    rw [← hg]
    exact ⟨rfl, Nat.le_refl 0⟩
  · rw [if_neg hmem] at hg
    exact absurd hg (by simp)

/-- One event moves a file's completed count up by at most one, and only on
a final test-end event for that file; its total never changes. -/
theorem step_completed_bound (st : RunState) (e : Event) (fp : String)
    (specMid : SpecStats)
    (hg : mapGet (step st e).specStats fp = some specMid) :
    ∃ spec0, mapGet st.specStats fp = some spec0 ∧
      specMid.total = spec0.total ∧
      specMid.completed ≤ spec0.completed +
        (if isFinalEndFor fp e then 1 else 0) := by
  cases e with
  | testBegin t nn =>
    replace hg : mapGet (onTestBegin st t nn).specStats fp = some specMid := hg
    rcases onTestBegin_mapGet st t nn fp with heq | ⟨hfp, spec0, hg0, hset⟩
    · exact ⟨specMid, heq ▸ hg, rfl, Nat.le_add_right _ _⟩
    · rw [hset] at hg
      injection hg with hg
      exact ⟨spec0, hg0, by rw [← hg], by rw [← hg]; exact Nat.le_add_right _ _⟩
  | testEnd t r nn =>
    replace hg : mapGet (onTestEnd st t r nn).specStats fp = some specMid := hg
    cases hg0 : mapGet st.specStats t.file with
    | none =>
      rw [onTestEnd_unknown st t r nn hg0] at hg
      exact ⟨specMid, hg, rfl, Nat.le_add_right _ _⟩
    | some spec0 =>
      by_cases hf : isFinalAttempt t r = true
      · obtain ⟨_, _, _, _, _, _, _, _, _, _, _, _, _, hdisj⟩ :=
          onTestEnd_final_char st t r nn spec0 hg0 hf
        by_cases hfp : fp = t.file
        · subst hfp
          have hproj := specAfterEnd_proj st.useColor spec0 t r
          have hfinal : isFinalEndFor t.file (Event.testEnd t r nn) = true := by
            simp [isFinalEndFor, hf]
          rcases hdisj with ⟨_, hset, _⟩ | ⟨_, hset, _⟩
          · rw [hset, mapGet_mapSet_self] at hg
            injection hg with hg
            refine ⟨spec0, hg0, ?_, ?_⟩
            · rw [← hg]; exact hproj.2.2.1
            · rw [← hg, hfinal]
              simp [hproj.2.2.2.1]
          · rw [hset, mapGet_mapSet_self] at hg
            injection hg with hg
            refine ⟨spec0, hg0, ?_, ?_⟩
            · rw [← hg]; exact hproj.2.2.1
            · rw [← hg, hfinal]
              simp [hproj.2.2.2.1]
        · rcases hdisj with ⟨_, hset, _⟩ | ⟨_, hset, _⟩ <;>
            rw [hset, mapGet_mapSet_ne _ _ _ _ hfp] at hg <;>
            exact ⟨specMid, hg, rfl, Nat.le_add_right _ _⟩
      · rw [onTestEnd_not_final st t r nn (Bool.eq_false_iff.mpr hf)] at hg
        exact ⟨specMid, hg, rfl, Nat.le_add_right _ _⟩
  | runEnd s nn =>
    replace hg : mapGet (onEnd st s nn).specStats fp = some specMid := hg
    rw [onEnd_specStats] at hg
    rcases flushPending_mapGet st nn fp with heq | ⟨spec0, hg0, hset⟩
    · exact ⟨specMid, heq ▸ hg, rfl, Nat.le_add_right _ _⟩
    · rw [hset] at hg
      injection hg with hg
      exact ⟨spec0, hg0, by rw [← hg], by rw [← hg]; exact Nat.le_add_right _ _⟩

theorem runEvents_completed_bound (events : List Event) (st : RunState)
    (fp : String) (spec2 : SpecStats)
    (hg2 : mapGet (runEvents st events).specStats fp = some spec2) :
    ∃ spec, mapGet st.specStats fp = some spec ∧ spec2.total = spec.total ∧
      spec2.completed ≤ spec.completed +
        (events.filter (isFinalEndFor fp)).length := by
  induction events generalizing st with
  | nil => exact ⟨spec2, hg2, rfl, by simp⟩
  | cons e rest ih =>
    obtain ⟨specMid, hgMid, htot, hcomp⟩ := ih (step st e) hg2
    obtain ⟨spec0, hg0, htot0, hcomp0⟩ := step_completed_bound st e fp specMid hgMid
    refine ⟨spec0, hg0, htot.trans htot0, ?_⟩
    calc spec2.completed
        ≤ specMid.completed + (rest.filter (isFinalEndFor fp)).length := hcomp
      _ ≤ spec0.completed + (if isFinalEndFor fp e then 1 else 0) +
            (rest.filter (isFinalEndFor fp)).length := by omega
      _ = spec0.completed + ((e :: rest).filter (isFinalEndFor fp)).length := by
            by_cases hfe : isFinalEndFor fp e <;>
              (simp [List.filter_cons, hfe]; try omega)

/-- C2: after every event of every run the per-file counters satisfy
passing + failing + pending + skipped = completed with flaky a sub-count of
passing, and under the host contract (no more final events for a file than
its discovered test count) completed never exceeds total. -/
theorem c2_counter_invariants :
    (∀ (u : Bool) (allTests : List TestCase) (n0 : Nat) (events : List Event)
       (fp : String) (spec : SpecStats),
      mapGet (runEvents (initState u allTests n0) events).specStats fp =
        some spec →
      spec.passing + spec.failing + spec.pending + spec.skipped =
        spec.completed ∧
      spec.flaky ≤ spec.passing) ∧
    (∀ (u : Bool) (allTests : List TestCase) (n0 : Nat) (events : List Event)
       (fp : String) (spec : SpecStats),
      (events.filter (isFinalEndFor fp)).length ≤ countFile allTests fp →
      mapGet (runEvents (initState u allTests n0) events).specStats fp =
        some spec →
      spec.completed ≤ spec.total) := by
  constructor
  · intro u allTests n0 events fp spec hg
    exact runEvents_countInv events (initState u allTests n0)
      (initState_countInv u allTests n0) fp spec hg
  · intro u allTests n0 events fp spec hcontract hg
    obtain ⟨spec0, hg0, htot, hcomp⟩ :=
      runEvents_completed_bound events (initState u allTests n0) fp spec hg
    rw [show (initState u allTests n0).specStats =
      (buildSpecOrder allTests).map
        (fun fp => (fp, mkSpec fp (countFile allTests fp))) from rfl,
      mapGet_map_mk] at hg0
    by_cases hmem : fp ∈ buildSpecOrder allTests
    · rw [if_pos hmem] at hg0
      injection hg0 with hg0
      rw [htot, ← hg0]
      show spec.completed ≤ countFile allTests fp
      have : spec0.completed = 0 := by rw [← hg0]; rfl
      omega
    · rw [if_neg hmem] at hg0
      exact absurd hg0 (by simp)

/-- Witness for C2 on a concrete one-test run: both invariants hold for the
state after the single finalized event. -/
theorem c2_counter_invariants_witness :
    ∃ spec, mapGet (runEvents (initState false [c2Test] 0)
        [Event.testEnd c2Test c2Result 1]).specStats "calm.spec.ts" =
        some spec ∧
      (spec.passing + spec.failing + spec.pending + spec.skipped =
          spec.completed ∧
        spec.flaky ≤ spec.passing) ∧
      spec.completed ≤ spec.total := by
  cases hg : mapGet (runEvents (initState false [c2Test] 0)
      [Event.testEnd c2Test c2Result 1]).specStats "calm.spec.ts" with
  | none => exact absurd hg (by decide)
  | some spec =>
    exact ⟨spec, rfl,
      c2_counter_invariants.1 false [c2Test] 0
        [Event.testEnd c2Test c2Result 1] "calm.spec.ts" spec hg,
      c2_counter_invariants.2 false [c2Test] 0
        [Event.testEnd c2Test c2Result 1] "calm.spec.ts" spec (by decide) hg⟩

theorem runEvents_append (st : RunState) (l1 l2 : List Event) :
    runEvents st (l1 ++ l2) = runEvents (runEvents st l1) l2 :=
  List.foldl_append step st l1 l2

theorem onTestEnd_output_char (st : RunState) (t : TestCase) (r : TestResult)
    (n : Nat) :
    (onTestEnd st t r n).output = st.output ∨
    ∃ sp i d bl, (onTestEnd st t r n).output =
      st.output ++ [OutEvent.specResults sp i d bl] := by
  cases hg : mapGet st.specStats t.file with
  | none => exact Or.inl (by rw [onTestEnd_unknown st t r n hg])
  | some spec =>
    by_cases hf : isFinalAttempt t r = true
    · obtain ⟨_, _, _, _, _, _, _, _, _, _, _, _, _, hdisj⟩ :=
        onTestEnd_final_char st t r n spec hg hf
      rcases hdisj with ⟨_, _, hout⟩ | ⟨_, _, i, d, bl, hout⟩
      · exact Or.inl hout
      · exact Or.inr ⟨_, i, d, bl, hout⟩
    · exact Or.inl
        (by rw [onTestEnd_not_final st t r n (Bool.eq_false_iff.mpr hf)])

theorem flushStep_output_char (n : Nat) (acc : RunState) (fp : String) :
    (flushStep n acc fp).output = acc.output ∨
    ∃ sp i d bl, (flushStep n acc fp).output =
      acc.output ++ [OutEvent.specResults sp i d bl] := by
  rcases flushStep_mapGet n acc fp fp with ⟨_, hout⟩ |
    ⟨_, spec, _, _, _, _, i, d, bl, hout⟩ | ⟨hne, _, _⟩
  · exact Or.inl hout
  · exact Or.inr ⟨_, i, d, bl, hout⟩
  · exact absurd rfl hne

theorem flushLoop_noFooter (n : Nat) (L : List String) (st : RunState)
    (h : noFooter st) : noFooter (L.foldl (flushStep n) st) := by
  induction L generalizing st with
  | nil => exact h
  | cons a L ih =>
    rw [List.foldl_cons]
    refine ih (flushStep n st a) ?_
    intro b d tt p f pd sk hmem
    rcases flushStep_output_char n st a with hout | ⟨sp, i, dd, bl, hout⟩
    · rw [hout] at hmem
      exact h b d tt p f pd sk hmem
    · rw [hout] at hmem
      rcases List.mem_append.mp hmem with hmem | hmem
      · exact h b d tt p f pd sk hmem
      · simp at hmem

theorem flushPending_noFooter (st : RunState) (n : Nat) (h : noFooter st) :
    noFooter (flushPending st n) :=
  flushLoop_noFooter n st.specOrder st h

theorem runTestPhase_noFooter (events : List Event) (st : RunState)
    (hev : ∀ e ∈ events, isTestEvent e = true) (h : noFooter st) :
    noFooter (runEvents st events) := by
  induction events generalizing st with
  | nil => exact h
  | cons e rest ih =>
    refine ih (step st e) (fun e2 he2 => hev e2 (List.mem_cons_of_mem _ he2)) ?_
    cases e with
    | testBegin t nn =>
      intro b d tt p f pd sk hmem
      have hb := (onTestBegin_stable st t nn).2.2.2.2.2.2.2.2.2.2.2.2
      rw [show step st (Event.testBegin t nn) = onTestBegin st t nn from rfl,
        hb] at hmem
      exact h b d tt p f pd sk hmem
    | testEnd t r nn =>
      intro b d tt p f pd sk hmem
      replace hmem : OutEvent.footer b d tt p f pd sk ∈ (onTestEnd st t r nn).output := hmem
      rcases onTestEnd_output_char st t r nn with hout | ⟨sp, i, dd, bl, hout⟩
      · rw [hout] at hmem
        exact h b d tt p f pd sk hmem
      · rw [hout] at hmem
        rcases List.mem_append.mp hmem with hmem | hmem
        · exact h b d tt p f pd sk hmem
        · simp at hmem
    | runEnd s nn =>
      exact absurd (hev (Event.runEnd s nn) (List.mem_cons_self _ _)) (by simp [isTestEvent])

theorem initState_noFooter (u : Bool) (allTests : List TestCase) (n0 : Nat) :
    noFooter (initState u allTests n0) := by
  intro b d tt p f pd sk hmem
  simp [initState] at hmem

theorem tableRows_no_footer (st : RunState) (b : Bool) (d : String)
    (tt p f pd sk : Nat) :
    OutEvent.footer b d tt p f pd sk ∉ tableRows st := by
  intro hmem
  unfold tableRows at hmem
  obtain ⟨fp, _, hev⟩ := List.mem_filterMap.mp hmem
  cases hg : mapGet st.specStats fp <;> rw [hg] at hev <;> simp at hev

/-- C7 amended: it is the aggregate footer row whose passing flag is derived
from the global failed counter (flag true iff failed = 0); the final output
line echoes the host-provided run status verbatim. -/
theorem c7_footer_and_status_line (u : Bool) (allTests : List TestCase)
    (n0 : Nat) (events : List Event) (s : FullStatus) (T : Nat)
    (hev : ∀ e ∈ events, isTestEvent e = true) :
    (runEvents (initState u allTests n0)
      (events ++ [Event.runEnd s T])).output.getLast? =
      some (OutEvent.statusLine s) ∧
    (∀ b d tt p f pd sk, OutEvent.footer b d tt p f pd sk ∈
        (runEvents (initState u allTests n0)
          (events ++ [Event.runEnd s T])).output →
      (b = true ↔ (runEvents (initState u allTests n0)
        (events ++ [Event.runEnd s T])).failed = 0)) := by
  rw [runEvents_append]
  have hnf : noFooter (runEvents (initState u allTests n0) events) :=
    runTestPhase_noFooter events (initState u allTests n0) hev
      (initState_noFooter u allTests n0)
  set st1 := runEvents (initState u allTests n0) events with hst1
  rw [show runEvents st1 [Event.runEnd s T] = onEnd st1 s T from rfl]
  have hout : (onEnd st1 s T).output =
      ((flushPending st1 T).output ++ [OutEvent.runFinished] ++
        tableRows (flushPending st1 T)) ++
      [OutEvent.footer (decide ((flushPending st1 T).failed = 0))
        (formatClockDuration ((T : Int) - ((flushPending st1 T).startTime : Int)))
        (flushPending st1 T).totalTests (flushPending st1 T).passed
        (flushPending st1 T).failed (flushPending st1 T).pending
        (flushPending st1 T).skipped,
       OutEvent.statusLine s] := by
    simp [onEnd]
  constructor
  · rw [hout, show ([OutEvent.footer (decide ((flushPending st1 T).failed = 0))
        (formatClockDuration ((T : Int) - ((flushPending st1 T).startTime : Int)))
        (flushPending st1 T).totalTests (flushPending st1 T).passed
        (flushPending st1 T).failed (flushPending st1 T).pending
        (flushPending st1 T).skipped,
       OutEvent.statusLine s] : List OutEvent) =
      [OutEvent.footer (decide ((flushPending st1 T).failed = 0))
        (formatClockDuration ((T : Int) - ((flushPending st1 T).startTime : Int)))
        (flushPending st1 T).totalTests (flushPending st1 T).passed
        (flushPending st1 T).failed (flushPending st1 T).pending
        (flushPending st1 T).skipped] ++ [OutEvent.statusLine s] from rfl,
      ← List.append_assoc]
    exact List.getLast?_concat _
  · intro b d tt p f pd sk hmem
    have hfail : (onEnd st1 s T).failed = (flushPending st1 T).failed := rfl
    rw [hout] at hmem
    rcases List.mem_append.mp hmem with hmem | hmem
    · rcases List.mem_append.mp hmem with hmem | hmem
      · rcases List.mem_append.mp hmem with hmem | hmem
        · exact absurd hmem (flushPending_noFooter st1 T hnf b d tt p f pd sk)
        · simp at hmem
      · exact absurd hmem (tableRows_no_footer _ b d tt p f pd sk)
    · cases hmem with
      | head =>
        rw [hfail]
        exact decide_eq_true_iff
      | tail _ hmem2 =>
        cases hmem2 with
        | tail _ hmem3 => cases hmem3

/-- Counterexample to C7 as stated: a run with global failed = 0 whose final
status line is INTERRUPTED, not a passing state — the last line echoes the
host-provided status, it is not derived from the failure counter. -/
theorem c7_counterexample :
    c7Run.failed = 0 ∧
    c7Run.output.getLast? = some (OutEvent.statusLine FullStatus.interrupted) ∧
    FullStatus.interrupted ≠ FullStatus.passed :=
  ⟨by decide, by decide, by decide⟩

/-- Witness for the amended C7 on the concrete interrupted run. -/
theorem c7_footer_and_status_line_witness :
    (runEvents (initState false [c7Test] 1)
      ([Event.testEnd c7Test c7Result 2] ++
        [Event.runEnd FullStatus.interrupted 3])).output.getLast? =
      some (OutEvent.statusLine FullStatus.interrupted) :=
  (c7_footer_and_status_line false [c7Test] 1
    [Event.testEnd c7Test c7Result 2] FullStatus.interrupted 3
    (by intro e he; simp at he; rw [he]; rfl)).1

theorem addToGroups_keys (groups : List FailureGroup) (f : FailedTest)
    (h : ∀ g ∈ groups, ∀ e ∈ g.entries, groupKey e = g.key) :
    ∀ g ∈ addToGroups groups f, ∀ e ∈ g.entries, groupKey e = g.key := by
  induction groups with
  | nil =>
    intro g hg e he
    simp only [addToGroups, List.mem_singleton] at hg
    subst hg
    simp only [List.mem_singleton] at he
    subst he
    rfl
  | cons g0 rest ih =>
    intro g hg e he
    unfold addToGroups at hg
    by_cases hk : g0.key == groupKey f
    · rw [if_pos hk] at hg
      rcases List.mem_cons.mp hg with hg2 | hg2
      · subst hg2
        rcases List.mem_append.mp he with he2 | he2
        · exact h g0 (List.mem_cons_self _ _) e he2
        · simp only [List.mem_singleton] at he2
          subst he2
          exact (eq_of_beq hk).symm
      · exact h g (List.mem_cons_of_mem _ hg2) e he
    · rw [if_neg hk] at hg
      rcases List.mem_cons.mp hg with hg2 | hg2
      · rw [hg2]
        exact h g0 (List.mem_cons_self _ _) e (hg2 ▸ he)
      · exact ih (fun g2 hg22 => h g2 (List.mem_cons_of_mem _ hg22)) g hg2 e he

theorem foldGroups_keys (l : List FailedTest) (groups : List FailureGroup)
    (h : ∀ g ∈ groups, ∀ e ∈ g.entries, groupKey e = g.key) :
    ∀ g ∈ l.foldl addToGroups groups, ∀ e ∈ g.entries, groupKey e = g.key := by
  induction l generalizing groups with
  | nil => exact h
  | cons f rest ih =>
    rw [List.foldl_cons]
    exact ih (addToGroups groups f) (addToGroups_keys groups f h)

theorem filter_isFull_subs (l : List FailedTest) :
    ((l.map (fun e => FailureBlock.entry (e.titlePath.get? 1) true e)).filter
      isFullEntry) = [] := by
  induction l with
  | nil => rfl
  | cons a l ih => simp [List.filter_cons, isFullEntry, ih]

theorem filter_isSub_subs (l : List FailedTest) :
    ((l.map (fun e => FailureBlock.entry (e.titlePath.get? 1) true e)).filter
      isSubEntry) =
      l.map (fun e => FailureBlock.entry (e.titlePath.get? 1) true e) := by
  induction l with
  | nil => rfl
  | cons a l ih => simp [List.filter_cons, isSubEntry, ih]

theorem buildGroups_keys (specFailures : List FailedTest) :
    ∀ g ∈ buildGroups specFailures, ∀ e ∈ g.entries, groupKey e = g.key :=
  foldGroups_keys specFailures [] (by intro g hg; simp at hg)

/-- C6 amended: groups are keyed by the title path with the two outer-most
segments (root and configuration) dropped; a single-record group prints one
full block; a multi-record group with one shared defined error message
prints exactly one full error block (group key, first record) and one
attachments-only sub-block for every record in the group that carries
attachments — including the first record itself, not only the other
records; a multi-record group without a shared message prints one full
block per record. -/
theorem c6_failure_grouping (specFailures : List FailedTest) :
    (∀ g ∈ buildGroups specFailures, ∀ e ∈ g.entries,
      joinSep " > " (e.titlePath.drop 2) = g.key) ∧
    (∀ (idx : Nat) (g : FailureGroup) (e0 : FailedTest),
      g.entries = [e0] →
      groupBlocks idx g =
        [FailureBlock.header (idx + 1) (joinSep " > " (e0.titlePath.drop 1)),
         FailureBlock.entry none false e0]) ∧
    (∀ (idx : Nat) (g : FailureGroup) (e0 : FailedTest)
       (rest : List FailedTest),
      g.entries = e0 :: rest → allSameError g.entries = true →
      (groupBlocks idx g).filter isFullEntry =
        [FailureBlock.entry none false e0] ∧
      (groupBlocks idx g).filter isSubEntry =
        (g.entries.filter hasExtras).map
          (fun e => FailureBlock.entry (e.titlePath.get? 1) true e) ∧
      (groupBlocks idx g).head? =
        some (FailureBlock.header (idx + 1) g.key)) ∧
    (∀ (idx : Nat) (g : FailureGroup) (e0 : FailedTest)
       (rest : List FailedTest),
      g.entries = e0 :: rest → rest ≠ [] → allSameError g.entries = false →
      groupBlocks idx g =
        FailureBlock.header (idx + 1) g.key ::
        g.entries.map
          (fun e => FailureBlock.entry (e.titlePath.get? 1) false e)) := by
  refine ⟨?_, ?_, ?_, ?_⟩
  · intro g hg e he
    exact buildGroups_keys specFailures g hg e he
  · intro idx g e0 hent
    simp [groupBlocks, hent]
  · intro idx g e0 rest hent hsame
    have hsame2 : allSameError (e0 :: rest) = true := hent ▸ hsame
    have hlen : 1 < (e0 :: rest).length := by
      unfold allSameError at hsame2
      rw [Bool.and_eq_true] at hsame2
      exact of_decide_eq_true hsame2.1
    have hne1 : ¬ (e0 :: rest).length = 1 := by omega
    have hblocks : groupBlocks idx g =
        [FailureBlock.header (idx + 1) g.key,
         FailureBlock.entry none false e0] ++
        ((e0 :: rest).filter hasExtras).map
          (fun e => FailureBlock.entry (e.titlePath.get? 1) true e) := by
      simp only [groupBlocks, hent]
      rw [if_neg hne1, if_pos hsame2]
    refine ⟨?_, ?_, ?_⟩
    · rw [hblocks, List.filter_append, filter_isFull_subs]
      simp [isFullEntry, List.filter_cons]
    · rw [hblocks, List.filter_append, filter_isSub_subs, hent]
      simp [isSubEntry, List.filter_cons]
    · rw [hblocks]
      rfl
  · intro idx g e0 rest hent hrest hsame
    have hsame2 : allSameError (e0 :: rest) = false := hent ▸ hsame
    have hne1 : ¬ (e0 :: rest).length = 1 := by
      cases rest with
      | nil => exact absurd rfl hrest
      | cons a l => simp
    simp only [groupBlocks, hent]
    rw [if_neg hne1, if_neg (by simp [hsame2])]

/-- Counterexample to C6 as stated: two records with the same grouping key
and identical error message, where only the FIRST record carries
attachments. The claim says attachments-only sub-blocks are printed for
each OTHER record with attachments (here: none), but the code prints one
sub-block for the first record. -/
theorem c6_counterexample :
    hasExtras c6f0 = true ∧ hasExtras c6f1 = false ∧
    buildGroups [c6f0, c6f1] =
      [{ key := "Suite > same test", entries := [c6f0, c6f1] }] ∧
    (renderFailureBlocks [c6f0, c6f1]).filter isSubEntry =
      [FailureBlock.entry (some "chromium") true c6f0] :=
  ⟨by decide, by decide, by decide, by decide⟩

/-- Witness for the amended C6 on the concrete two-record group. -/
theorem c6_failure_grouping_witness :
    (groupBlocks 0 { key := "Suite > same test", entries := [c6f0, c6f1] }).filter
        isSubEntry =
      ([c6f0, c6f1].filter hasExtras).map
        (fun e => FailureBlock.entry (e.titlePath.get? 1) true e) :=
  ((c6_failure_grouping [c6f0, c6f1]).2.2.1 0
    { key := "Suite > same test", entries := [c6f0, c6f1] } c6f0 [c6f1]
    rfl (by decide)).2.1

theorem flushCount_congr (st st2 : RunState) (fp : String)
    (h : st2.output = st.output) : flushCount st2 fp = flushCount st fp := by
  unfold flushCount
  rw [h]

theorem flushCount_append (st st2 : RunState) (fp : String) (ev : OutEvent)
    (h : st2.output = st.output ++ [ev]) :
    flushCount st2 fp =
      flushCount st fp + (if isFlushOf fp ev then 1 else 0) := by
  unfold flushCount
  rw [h, List.filter_append, List.length_append]
  by_cases hev : isFlushOf fp ev <;> simp [hev]

theorem buildSpecOrder_sub (allTests : List TestCase) :
    ∀ (acc : List String) (fp : String),
      fp ∈ allTests.foldl
        (fun acc t => if t.file ∈ acc then acc else acc ++ [t.file]) acc →
      fp ∈ acc ∨ ∃ t, t ∈ allTests ∧ t.file = fp := by
  induction allTests with
  | nil =>
    intro acc fp h
    exact Or.inl h
  | cons t rest ih =>
    intro acc fp h
    rw [List.foldl_cons] at h
    rcases ih _ fp h with hmem | ⟨t2, ht2, hf⟩
    · by_cases hc : t.file ∈ acc
      · rw [if_pos hc] at hmem
        exact Or.inl hmem
      · rw [if_neg hc] at hmem
        rcases List.mem_append.mp hmem with hmem2 | hmem2
        · exact Or.inl hmem2
        · simp only [List.mem_singleton] at hmem2
          exact Or.inr ⟨t, List.mem_cons_self _ _, hmem2.symm⟩
    · exact Or.inr ⟨t2, List.mem_cons_of_mem _ ht2, hf⟩

theorem mem_buildSpecOrder_countFile (allTests : List TestCase) (fp : String)
    (h : fp ∈ buildSpecOrder allTests) : 1 ≤ countFile allTests fp := by
  rcases buildSpecOrder_sub allTests [] fp h with hmem | ⟨t, ht, hf⟩
  · simp at hmem
  · unfold countFile
    have hmem2 : t ∈ allTests.filter (fun t2 => decide (t2.file = fp)) :=
      List.mem_filter.mpr ⟨ht, by simp [hf]⟩
    exact List.length_pos.mpr (List.ne_nil_of_mem hmem2)

theorem initState_specStats (u : Bool) (allTests : List TestCase) (n0 : Nat) :
    (initState u allTests n0).specStats =
      (buildSpecOrder allTests).map
        (fun fp => (fp, mkSpec fp (countFile allTests fp))) := rfl

theorem initState_flushInv (u : Bool) (allTests : List TestCase) (n0 : Nat) :
    flushInvP (initState u allTests n0) := by
  have hcount : ∀ fp, flushCount (initState u allTests n0) fp = 0 := by
    intro fp
    rfl
  constructor
  · intro fp _
    exact hcount fp
  · intro fp spec hg
    rw [initState_specStats, mapGet_map_mk] at hg
    by_cases hmem : fp ∈ buildSpecOrder allTests
    · rw [if_pos hmem] at hg
      injection hg with hg
      refine ⟨by rw [← hg]; rfl, hmem, ?_, ?_, ?_⟩
      · rw [← hg]
        exact mem_buildSpecOrder_countFile allTests fp hmem
      · rw [hcount fp, ← hg]
        rfl
      · intro hne
        exact absurd (by rw [← hg]; rfl) hne
    · rw [if_neg hmem] at hg
      exact absurd hg (by simp)

theorem initState_phaseInv (u : Bool) (allTests : List TestCase) (n0 : Nat) :
    phaseInvP (initState u allTests n0) := by
  intro fp spec hg
  rw [initState_specStats, mapGet_map_mk] at hg
  by_cases hmem : fp ∈ buildSpecOrder allTests
  · rw [if_pos hmem] at hg
    injection hg with hg
    intro hne
    exact absurd (by rw [← hg]; rfl) hne
  · rw [if_neg hmem] at hg
    exact absurd hg (by simp)

theorem onTestBegin_preserve (st : RunState) (t : TestCase) (nn : Nat)
    (h1 : flushInvP st) (h2 : phaseInvP st) :
    flushInvP (onTestBegin st t nn) ∧ phaseInvP (onTestBegin st t nn) := by
  have hb := onTestBegin_stable st t nn
  have hout : (onTestBegin st t nn).output = st.output :=
    hb.2.2.2.2.2.2.2.2.2.2.2.2
  have horder : (onTestBegin st t nn).specOrder = st.specOrder :=
    hb.2.2.2.2.2.2.2.2.2.1
  have hcnt : ∀ fp, flushCount (onTestBegin st t nn) fp = flushCount st fp :=
    fun fp => flushCount_congr st _ fp hout
  refine ⟨⟨?_, ?_⟩, ?_⟩
  · intro fp hnone
    rcases onTestBegin_mapGet st t nn fp with heq | ⟨_, spec0, hg0, hset⟩
    · rw [hcnt fp]
      exact h1.1 fp (heq ▸ hnone)
    · rw [hset] at hnone
      exact absurd hnone (by simp)
  · intro fp spec hg
    rcases onTestBegin_mapGet st t nn fp with heq | ⟨_, spec0, hg0, hset⟩
    · obtain ⟨p1, p2, p3, p4, p5⟩ := h1.2 fp spec (heq ▸ hg)
      exact ⟨p1, horder ▸ p2, p3, (hcnt fp).trans p4, p5⟩
    · rw [hset] at hg
      injection hg with hg
      obtain ⟨p1, p2, p3, p4, p5⟩ := h1.2 fp spec0 hg0
      rw [← hg]
      exact ⟨p1, horder ▸ p2, p3, (hcnt fp).trans p4, p5⟩
  · intro fp spec hg
    rcases onTestBegin_mapGet st t nn fp with heq | ⟨_, spec0, hg0, hset⟩
    · exact h2 fp spec (heq ▸ hg)
    · rw [hset] at hg
      injection hg with hg
      rw [← hg]
      exact h2 fp spec0 hg0

theorem onTestEnd_preserve (st : RunState) (t : TestCase) (r : TestResult)
    (nn : Nat) (hn : 1 ≤ nn) (h1 : flushInvP st) (h2 : phaseInvP st) :
    flushInvP (onTestEnd st t r nn) ∧ phaseInvP (onTestEnd st t r nn) := by
  cases hg0 : mapGet st.specStats t.file with
  | none =>
    rw [onTestEnd_unknown st t r nn hg0]
    exact ⟨h1, h2⟩
  | some spec0 =>
    by_cases hf : isFinalAttempt t r = true
    · obtain ⟨_, _, _, horder, _, _, _, _, _, _, _, _, _, hdisj⟩ :=
        onTestEnd_final_char st t r nn spec0 hg0 hf
      have hproj := specAfterEnd_proj st.useColor spec0 t r
      obtain ⟨q1, q2, q3, q4, q5⟩ := h1.2 t.file spec0 hg0
      rcases hdisj with ⟨hne, hset, hout⟩ | ⟨heq, hset, i, d, bl, hout⟩
      · -- no flush: output unchanged, entry replaced by specAfterEnd
        have hcnt : ∀ fp, flushCount (onTestEnd st t r nn) fp =
            flushCount st fp := fun fp => flushCount_congr st _ fp hout
        refine ⟨⟨?_, ?_⟩, ?_⟩
        · intro fp hnone
          rw [hset] at hnone
          by_cases hfp : fp = t.file
          · subst hfp
            rw [mapGet_mapSet_self] at hnone
            exact absurd hnone (by simp)
          · rw [mapGet_mapSet_ne _ _ _ _ hfp] at hnone
            rw [hcnt fp]
            exact h1.1 fp hnone
        · intro fp spec hg
          rw [hset] at hg
          by_cases hfp : fp = t.file
          · subst hfp
            rw [mapGet_mapSet_self] at hg
            injection hg with hg
            rw [← hg]
            refine ⟨hproj.1.trans q1, horder ▸ q2, ?_, ?_, ?_⟩
            · rw [hproj.2.2.1]
              exact q3
            · rw [hcnt t.file, hproj.2.2.2.2.2.1]
              exact q4
            · intro hne2
              rw [hproj.2.2.2.1]
              omega
          · rw [mapGet_mapSet_ne _ _ _ _ hfp] at hg
            obtain ⟨p1, p2, p3, p4, p5⟩ := h1.2 fp spec hg
            exact ⟨p1, horder ▸ p2, p3, (hcnt fp).trans p4, p5⟩
        · intro fp spec hg
          rw [hset] at hg
          by_cases hfp : fp = t.file
          · subst hfp
            rw [mapGet_mapSet_self] at hg
            injection hg with hg
            rw [← hg]
            intro hne2
            rw [hproj.2.2.2.1, hproj.2.2.1]
            rw [hproj.2.2.2.2.2.1] at hne2
            have := h2 t.file spec0 hg0 hne2
            omega
          · rw [mapGet_mapSet_ne _ _ _ _ hfp] at hg
            exact h2 fp spec hg
      · -- flush: completed reached total; the old stamp must still be 0
        have hzero : spec0.endedAt = 0 := by
          by_contra hnz
          have hle := h2 t.file spec0 hg0 hnz
          rw [hproj.2.2.2.1, hproj.2.2.1] at heq
          omega
        have hcnt : ∀ fp, flushCount (onTestEnd st t r nn) fp =
            flushCount st fp +
              (if isFlushOf fp (OutEvent.specResults
                { specAfterEnd st.useColor spec0 t r with endedAt := nn }
                i d bl) then 1 else 0) :=
          fun fp => flushCount_append st _ fp _ hout
        have hpath : ({ specAfterEnd st.useColor spec0 t r with
            endedAt := nn } : SpecStats).filePath = t.file := by
          show (specAfterEnd st.useColor spec0 t r).filePath = t.file
          exact hproj.1.trans q1
        have hflush : ∀ fp, isFlushOf fp (OutEvent.specResults
            { specAfterEnd st.useColor spec0 t r with endedAt := nn }
            i d bl) = (t.file == fp) := by
          intro fp
          show (({ specAfterEnd st.useColor spec0 t r with
            endedAt := nn } : SpecStats).filePath == fp) = (t.file == fp)
          rw [hpath]
        refine ⟨⟨?_, ?_⟩, ?_⟩
        · intro fp hnone
          rw [hset] at hnone
          by_cases hfp : fp = t.file
          · subst hfp
            rw [mapGet_mapSet_self] at hnone
            exact absurd hnone (by simp)
          · rw [mapGet_mapSet_ne _ _ _ _ hfp] at hnone
            rw [hcnt fp, hflush fp]
            have hbeq : (t.file == fp) = false := by
              simp [hfp]
              intro hcontra
              exact hfp hcontra.symm
            rw [hbeq]
            simp [h1.1 fp hnone]
        · intro fp spec hg
          rw [hset] at hg
          by_cases hfp : fp = t.file
          · subst hfp
            rw [mapGet_mapSet_self] at hg
            injection hg with hg
            rw [← hg]
            refine ⟨hpath, horder ▸ q2, ?_, ?_, ?_⟩
            · show (specAfterEnd st.useColor spec0 t r).total ≥ 1
              rw [hproj.2.2.1]
              exact q3
            · rw [hcnt t.file, hflush t.file]
              have hbeq : (t.file == t.file) = true := by simp
              rw [hbeq]
              have : ¬ (({ specAfterEnd st.useColor spec0 t r with
                  endedAt := nn } : SpecStats).endedAt = 0) := by
                show ¬ (nn = 0)
                omega
              rw [if_neg this, q4, if_pos hzero]
              simp
            · intro _
              show 1 ≤ (specAfterEnd st.useColor spec0 t r).completed
              rw [hproj.2.2.2.1]
              omega
          · rw [mapGet_mapSet_ne _ _ _ _ hfp] at hg
            obtain ⟨p1, p2, p3, p4, p5⟩ := h1.2 fp spec hg
            refine ⟨p1, horder ▸ p2, p3, ?_, p5⟩
            rw [hcnt fp, hflush fp]
            have hbeq : (t.file == fp) = false := by
              simp
              intro hcontra
              exact hfp hcontra.symm
            rw [hbeq]
            simp [p4]
        · intro fp spec hg
          rw [hset] at hg
          by_cases hfp : fp = t.file
          · subst hfp
            rw [mapGet_mapSet_self] at hg
            injection hg with hg
            rw [← hg]
            intro _
            show (specAfterEnd st.useColor spec0 t r).total ≤
              (specAfterEnd st.useColor spec0 t r).completed
            omega
          · rw [mapGet_mapSet_ne _ _ _ _ hfp] at hg
            exact h2 fp spec hg
    · rw [onTestEnd_not_final st t r nn (Bool.eq_false_iff.mpr hf)]
      exact ⟨h1, h2⟩

theorem testPhase_invs (events : List Event) (st : RunState)
    (hev : ∀ e ∈ events, isTestEvent e = true ∧ 1 ≤ eventTime e)
    (h1 : flushInvP st) (h2 : phaseInvP st) :
    flushInvP (runEvents st events) ∧ phaseInvP (runEvents st events) := by
  induction events generalizing st with
  | nil => exact ⟨h1, h2⟩
  | cons e rest ih =>
    have hrest : ∀ e2 ∈ rest, isTestEvent e2 = true ∧ 1 ≤ eventTime e2 :=
      fun e2 he2 => hev e2 (List.mem_cons_of_mem _ he2)
    obtain ⟨hte, htime⟩ := hev e (List.mem_cons_self _ _)
    cases e with
    | testBegin t nn =>
      obtain ⟨g1, g2⟩ := onTestBegin_preserve st t nn h1 h2
      exact ih (step st (Event.testBegin t nn)) hrest g1 g2
    | testEnd t r nn =>
      obtain ⟨g1, g2⟩ := onTestEnd_preserve st t r nn htime h1 h2
      exact ih (step st (Event.testEnd t r nn)) hrest g1 g2
    | runEnd s nn => exact absurd hte (by simp [isTestEvent])

theorem flushStep_preserve (n : Nat) (acc : RunState) (fps : String)
    (hn : 1 ≤ n) (h1 : flushInvP acc) : flushInvP (flushStep n acc fps) := by
  have horder : (flushStep n acc fps).specOrder = acc.specOrder :=
    (flushStep_stable n acc fps).2.2.2.2.2.2.2.2.2.1
  constructor
  · intro fp hnone
    rcases flushStep_mapGet n acc fps fp with ⟨heq, hout⟩ |
      ⟨hfpe, spec, hgs, hc0, he0, hset, i, d, bl, hout⟩ |
      ⟨hne, heq, spec, hgs, hc0, he0, i, d, bl, hout⟩
    · rw [flushCount_congr acc _ fp hout]
      exact h1.1 fp (heq ▸ hnone)
    · rw [hset] at hnone
      exact absurd hnone (by simp)
    · rw [heq] at hnone
      rw [flushCount_append acc _ fp _ hout]
      have hflush : isFlushOf fp (OutEvent.specResults
          { spec with endedAt := n } i d bl) = false := by
        show (({ spec with endedAt := n } : SpecStats).filePath == fp) = false
        show (spec.filePath == fp) = false
        rw [(h1.2 fps spec hgs).1]
        exact beq_eq_false_iff_ne.mpr (fun hcontra => hne hcontra.symm)
      rw [hflush]
      simp [h1.1 fp hnone]
  · intro fp spec2 hg2
    rcases flushStep_mapGet n acc fps fp with ⟨heq, hout⟩ |
      ⟨hfpe, spec, hgs, hc0, he0, hset, i, d, bl, hout⟩ |
      ⟨hne, heq, spec, hgs, hc0, he0, i, d, bl, hout⟩
    · obtain ⟨p1, p2, p3, p4, p5⟩ := h1.2 fp spec2 (heq ▸ hg2)
      exact ⟨p1, horder ▸ p2, p3, (flushCount_congr acc _ fp hout).trans p4, p5⟩
    · subst hfpe
      obtain ⟨p1, p2, p3, p4, p5⟩ := h1.2 fp spec hgs
      rw [hset] at hg2
      injection hg2 with hg2
      rw [← hg2]
      refine ⟨p1, horder ▸ p2, p3, ?_, ?_⟩
      · rw [flushCount_append acc _ fp _ hout]
        have hflush : isFlushOf fp (OutEvent.specResults
            { spec with endedAt := n } i d bl) = true := by
          show (({ spec with endedAt := n } : SpecStats).filePath == fp) = true
          show (spec.filePath == fp) = true
          rw [p1]
          simp
        rw [hflush, p4, if_pos he0]
        have hne0 : ¬ (({ spec with endedAt := n } : SpecStats).endedAt = 0) := by
          show ¬ (n = 0)
          omega
        rw [if_neg hne0]
        simp
      · intro _
        show 1 ≤ spec.completed
        omega
    · obtain ⟨p1, p2, p3, p4, p5⟩ := h1.2 fp spec2 (heq ▸ hg2)
      refine ⟨p1, horder ▸ p2, p3, ?_, p5⟩
      rw [flushCount_append acc _ fp _ hout]
      have hflush : isFlushOf fp (OutEvent.specResults
          { spec with endedAt := n } i d bl) = false := by
        show (({ spec with endedAt := n } : SpecStats).filePath == fp) = false
        show (spec.filePath == fp) = false
        rw [(h1.2 fps spec hgs).1]
        exact beq_eq_false_iff_ne.mpr (fun hcontra => hne hcontra.symm)
      rw [hflush]
      simp [heq, p4]

theorem flushLoop_preserve (n : Nat) (L : List String) (acc : RunState)
    (hn : 1 ≤ n) (h1 : flushInvP acc) :
    flushInvP (L.foldl (flushStep n) acc) := by
  induction L generalizing acc with
  | nil => exact h1
  | cons a L ih =>
    rw [List.foldl_cons]
    exact ih (flushStep n acc a) (flushStep_preserve n acc a hn h1)

theorem flushStep_self_completes (n : Nat) (acc : RunState) (fps : String)
    (hn : 1 ≤ n) :
    ∀ spec2, mapGet (flushStep n acc fps).specStats fps = some spec2 →
      0 < spec2.completed → spec2.endedAt ≠ 0 := by
  intro spec2 hg2 hc2
  cases hg : mapGet acc.specStats fps with
  | none =>
    have heq : flushStep n acc fps = acc := by
      unfold flushStep
      rw [hg]
    rw [heq, hg] at hg2
    exact absurd hg2 (by simp)
  | some spec =>
    by_cases hcond : 0 < spec.completed ∧ spec.endedAt = 0
    · have hset : mapGet (flushStep n acc fps).specStats fps =
          some { spec with endedAt := n } := by
        simp only [flushStep, hg, if_pos hcond]
        simp [printSpecResults, mapGet_mapSet_self]
      rw [hset] at hg2
      injection hg2 with hg2
      rw [← hg2]
      show ¬ (n = 0)
      omega
    · have heq : flushStep n acc fps = acc := by
        simp only [flushStep, hg, if_neg hcond]
      rw [heq, hg] at hg2
      injection hg2 with hg2
      rw [← hg2]
      rw [← hg2] at hc2
      intro hz
      exact hcond ⟨hc2, hz⟩

theorem flushLoop_P_preserved (n : Nat) (L : List String) (acc : RunState)
    (fp : String) (hn : 1 ≤ n)
    (hP : ∀ spec, mapGet acc.specStats fp = some spec →
      0 < spec.completed → spec.endedAt ≠ 0) :
    ∀ spec, mapGet (L.foldl (flushStep n) acc).specStats fp = some spec →
      0 < spec.completed → spec.endedAt ≠ 0 := by
  induction L generalizing acc with
  | nil => exact hP
  | cons a L ih =>
    intro spec hg hc
    rw [List.foldl_cons] at hg
    refine ih (flushStep n acc a) ?_ spec hg hc
    intro spec2 hg2 hc2
    rcases flushStep_mapGet n acc a fp with ⟨heq, _⟩ |
      ⟨hfpe, spec3, hg3, hc3, he3, hset, _⟩ | ⟨_, heq, _⟩
    · exact hP spec2 (heq ▸ hg2) hc2
    · rw [hset] at hg2
      injection hg2 with hg2
      rw [← hg2]
      show ¬ (n = 0)
      omega
    · exact hP spec2 (heq ▸ hg2) hc2

theorem flushLoop_completes (n : Nat) (L : List String) (acc : RunState)
    (hn : 1 ≤ n) :
    ∀ fp ∈ L, ∀ spec,
      mapGet (L.foldl (flushStep n) acc).specStats fp = some spec →
      0 < spec.completed → spec.endedAt ≠ 0 := by
  induction L generalizing acc with
  | nil =>
    intro fp hfp
    simp at hfp
  | cons a L ih =>
    intro fp hfp spec hg hc
    rw [List.foldl_cons] at hg
    rcases List.mem_cons.mp hfp with rfl | hfpL
    · exact flushLoop_P_preserved n L (flushStep n acc fp) fp hn
        (flushStep_self_completes n acc fp hn) spec hg hc
    · exact ih (flushStep n acc a) fp hfpL spec hg hc

theorem onEnd_flushCount (st : RunState) (s : FullStatus) (T : Nat)
    (fp : String) :
    flushCount (onEnd st s T) fp = flushCount (flushPending st T) fp := by
  have hout : (onEnd st s T).output =
      (flushPending st T).output ++ ([OutEvent.runFinished] ++
        tableRows (flushPending st T) ++
        [OutEvent.footer (decide ((flushPending st T).failed = 0))
          (formatClockDuration ((T : Int) -
            ((flushPending st T).startTime : Int)))
          (flushPending st T).totalTests (flushPending st T).passed
          (flushPending st T).failed (flushPending st T).pending
          (flushPending st T).skipped,
         OutEvent.statusLine s]) := by
    simp [onEnd]
  unfold flushCount
  rw [hout, List.filter_append, List.length_append]
  have hnil : List.filter (isFlushOf fp) ([OutEvent.runFinished] ++
      tableRows (flushPending st T) ++
      [OutEvent.footer (decide ((flushPending st T).failed = 0))
        (formatClockDuration ((T : Int) -
          ((flushPending st T).startTime : Int)))
        (flushPending st T).totalTests (flushPending st T).passed
        (flushPending st T).failed (flushPending st T).pending
        (flushPending st T).skipped,
       OutEvent.statusLine s]) = [] := by
    rw [List.filter_append, List.filter_append]
    have hrows : List.filter (isFlushOf fp) (tableRows (flushPending st T)) = [] := by
      rw [List.filter_eq_nil_iff]
      intro ev hev
      obtain ⟨fp2, _, heq⟩ := List.mem_filterMap.mp hev
      cases hgg : mapGet (flushPending st T).specStats fp2 <;>
        rw [hgg] at heq <;> simp at heq
      rw [← heq]
      simp [isFlushOf]
    rw [hrows]
    simp [isFlushOf]
  rw [hnil]
  simp

/-- C1 amended: in any single run (test-phase callbacks followed by one
onEnd, all timestamps positive) each discovered spec's results block is
printed exactly once if it ever records a completed test (at the moment
completed first reaches total, or else at run end), and is never printed at
all if no test of it ever finalizes; no spec is ever printed twice. -/
theorem c1_flush_exactly_once_iff_completed (u : Bool)
    (allTests : List TestCase) (n0 : Nat) (events : List Event)
    (s : FullStatus) (T : Nat)
    (hev : ∀ e ∈ events, isTestEvent e = true ∧ 1 ≤ eventTime e)
    (hT : 1 ≤ T) :
    (∀ fp spec,
      mapGet (runEvents (initState u allTests n0)
        (events ++ [Event.runEnd s T])).specStats fp = some spec →
      flushCount (runEvents (initState u allTests n0)
        (events ++ [Event.runEnd s T])) fp =
        (if spec.completed = 0 then 0 else 1)) ∧
    (∀ fp, flushCount (runEvents (initState u allTests n0)
      (events ++ [Event.runEnd s T])) fp ≤ 1) := by
  rw [runEvents_append]
  set st1 := runEvents (initState u allTests n0) events with hst1
  rw [show runEvents st1 [Event.runEnd s T] = onEnd st1 s T from rfl]
  obtain ⟨hfi, hpi⟩ := testPhase_invs events (initState u allTests n0) hev
    (initState_flushInv u allTests n0) (initState_phaseInv u allTests n0)
  rw [← hst1] at hfi hpi
  have hfi2 : flushInvP (flushPending st1 T) :=
    flushLoop_preserve T st1.specOrder st1 hT hfi
  constructor
  · intro fp spec hg
    replace hg : mapGet (flushPending st1 T).specStats fp = some spec := hg
    obtain ⟨p1, p2, p3, p4, p5⟩ := hfi2.2 fp spec hg
    rw [onEnd_flushCount]
    by_cases hc : spec.completed = 0
    · have hz : spec.endedAt = 0 := by
        by_contra hnz
        have := p5 hnz
        omega
      rw [p4, if_pos hz, if_pos hc]
    · have hmem2 : fp ∈ st1.specOrder := by
        have horder := (flushPending_stable st1 T).2.2.2.2.2.2.2.2.2.1
        rw [horder] at p2
        exact p2
      have hcomp := flushLoop_completes T st1.specOrder st1 hT fp hmem2 spec
        hg (by omega)
      rw [p4, if_neg hcomp, if_neg hc]
  · intro fp
    rw [onEnd_flushCount]
    cases hg : mapGet (flushPending st1 T).specStats fp with
    | none =>
      rw [hfi2.1 fp hg]
      omega
    | some spec =>
      obtain ⟨_, _, _, p4, _⟩ := hfi2.2 fp spec hg
      rw [p4]
      by_cases hz : spec.endedAt = 0 <;> simp [hz]

/-- Counterexample to C1 as stated: a discovered spec with no completed test
is never printed at all — zero flushes, not exactly one — even though onEnd
ran; the onEnd recovery loop skips specs with completed = 0. -/
theorem c1_counterexample :
    "neverran-c1.spec.ts" ∈ c1Run.specOrder ∧
    (mapGet c1Run.specStats "neverran-c1.spec.ts").isSome = true ∧
    flushCount c1Run "neverran-c1.spec.ts" = 0 :=
  ⟨by decide, by decide, by decide⟩

/-- Witness for the amended C1 on a concrete completed run. -/
theorem c1_flush_exactly_once_iff_completed_witness :
    flushCount (runEvents (initState false [c1wTest] 1)
      ([Event.testEnd c1wTest c1wResult 2] ++
        [Event.runEnd FullStatus.passed 3])) "one.spec.ts" ≤ 1 :=
  (c1_flush_exactly_once_iff_completed false [c1wTest] 1
    [Event.testEnd c1wTest c1wResult 2] FullStatus.passed 3
    (by intro e he; simp at he; rw [he]; exact ⟨rfl, by decide⟩)
    (by decide)).2 "one.spec.ts"

/-- C5 amended: at onEnd every spec that has at least one completed test and
was not yet flushed is flushed exactly once, with endedAt set to the flush
time; but a spec with zero completed tests is never flushed — it is dropped
from the per-spec results blocks, keeping only its summary-table row. -/
theorem c5_onend_flush (u : Bool) (allTests : List TestCase) (n0 : Nat)
    (events : List Event) (s : FullStatus) (T : Nat)
    (hev : ∀ e ∈ events, isTestEvent e = true ∧ 1 ≤ eventTime e)
    (hT : 1 ≤ T) (fp : String) (spec1 : SpecStats)
    (hg1 : mapGet (runEvents (initState u allTests n0)
      events).specStats fp = some spec1)
    (hc : 0 < spec1.completed) (he : spec1.endedAt = 0) :
    mapGet (runEvents (initState u allTests n0)
      (events ++ [Event.runEnd s T])).specStats fp =
      some { spec1 with endedAt := T } ∧
    flushCount (runEvents (initState u allTests n0)
      (events ++ [Event.runEnd s T])) fp = 1 ∧
    flushCount (runEvents (initState u allTests n0) events) fp = 0 ∧
    (∃ nm fl d tot p f pd sk, OutEvent.tableRow fp nm fl d tot p f pd sk ∈
      (runEvents (initState u allTests n0)
        (events ++ [Event.runEnd s T])).output) := by
  rw [runEvents_append]
  set st1 := runEvents (initState u allTests n0) events with hst1
  rw [show runEvents st1 [Event.runEnd s T] = onEnd st1 s T from rfl]
  obtain ⟨hfi, hpi⟩ := testPhase_invs events (initState u allTests n0) hev
    (initState_flushInv u allTests n0) (initState_phaseInv u allTests n0)
  rw [← hst1] at hfi
  obtain ⟨p1, p2, p3, p4, p5⟩ := hfi.2 fp spec1 hg1
  have hfi2 : flushInvP (flushPending st1 T) :=
    flushLoop_preserve T st1.specOrder st1 hT hfi
  have hentry : mapGet (flushPending st1 T).specStats fp =
      some { spec1 with endedAt := T } := by
    rcases flushPending_mapGet st1 T fp with heq | ⟨spec0, hg0, hset⟩
    · have hcomp := flushLoop_completes T st1.specOrder st1 hT fp p2 spec1
        (heq.trans hg1) hc
      exact absurd he hcomp
    · rw [hg1] at hg0
      injection hg0 with hg0
      rw [hset, hg0]
  refine ⟨hentry, ?_, ?_, ?_⟩
  · rw [onEnd_flushCount]
    obtain ⟨_, _, _, q4, _⟩ := hfi2.2 fp _ hentry
    rw [q4, if_neg (by show ¬ (T = 0); omega)]
  · rw [p4, if_pos he]
  · have hmemOrder : fp ∈ (flushPending st1 T).specOrder := by
      rw [(flushPending_stable st1 T).2.2.2.2.2.2.2.2.2.1]
      exact p2
    have hrow : OutEvent.tableRow fp
        (truncate ({ spec1 with endedAt := T } : SpecStats).fileName
          (flushPending st1 T).tableFilenameWidth)
        (0 < ({ spec1 with endedAt := T } : SpecStats).failing)
        (formatClockDuration
          ((({ spec1 with endedAt := T } : SpecStats).endedAt : Int) -
            (({ spec1 with endedAt := T } : SpecStats).startedAt : Int)))
        ({ spec1 with endedAt := T } : SpecStats).total
        ({ spec1 with endedAt := T } : SpecStats).passing
        ({ spec1 with endedAt := T } : SpecStats).failing
        ({ spec1 with endedAt := T } : SpecStats).pending
        ({ spec1 with endedAt := T } : SpecStats).skipped ∈
        tableRows (flushPending st1 T) := by
      unfold tableRows
      refine List.mem_filterMap.mpr ⟨fp, hmemOrder, ?_⟩
      rw [hentry]
    have hout : (onEnd st1 s T).output =
        (flushPending st1 T).output ++ ([OutEvent.runFinished] ++
          tableRows (flushPending st1 T) ++
          [OutEvent.footer (decide ((flushPending st1 T).failed = 0))
            (formatClockDuration ((T : Int) -
              ((flushPending st1 T).startTime : Int)))
            (flushPending st1 T).totalTests (flushPending st1 T).passed
            (flushPending st1 T).failed (flushPending st1 T).pending
            (flushPending st1 T).skipped,
           OutEvent.statusLine s]) := by
      simp [onEnd]
    refine ⟨truncate ({ spec1 with endedAt := T } : SpecStats).fileName
        (flushPending st1 T).tableFilenameWidth,
      decide (0 < ({ spec1 with endedAt := T } : SpecStats).failing),
      formatClockDuration
        ((({ spec1 with endedAt := T } : SpecStats).endedAt : Int) -
          (({ spec1 with endedAt := T } : SpecStats).startedAt : Int)),
      ({ spec1 with endedAt := T } : SpecStats).total,
      ({ spec1 with endedAt := T } : SpecStats).passing,
      ({ spec1 with endedAt := T } : SpecStats).failing,
      ({ spec1 with endedAt := T } : SpecStats).pending,
      ({ spec1 with endedAt := T } : SpecStats).skipped, ?_⟩
    rw [hout]
    refine List.mem_append.mpr (Or.inr ?_)
    refine List.mem_append.mpr (Or.inl ?_)
    exact List.mem_append.mpr (Or.inr hrow)

/-- Counterexample to C5 as stated: a spec whose completed count stayed zero
is NOT flushed at onEnd — the recovery loop requires completed > 0 — so
this file gets no results block at all (it keeps only its summary row). -/
theorem c5_counterexample :
    "ghosted-c5.spec.ts" ∈ c5Run.specOrder ∧
    (mapGet c5Run.specStats "ghosted-c5.spec.ts").isSome = true ∧
    flushCount c5Run "ghosted-c5.spec.ts" = 0 :=
  ⟨by decide, by decide, by decide⟩

/-- Witness for the amended C5: a file stuck at one of two tests completed
is flushed exactly once at onEnd with endedAt set to the onEnd time. -/
theorem c5_onend_flush_witness :
    mapGet (runEvents (initState false [c5wT1, c5wT2] 1)
      ([Event.testEnd c5wT1 c5wRes 2] ++
        [Event.runEnd FullStatus.interrupted 9])).specStats "partial.spec.ts" =
      some { c5wSpec with endedAt := 9 } ∧
    flushCount (runEvents (initState false [c5wT1, c5wT2] 1)
      ([Event.testEnd c5wT1 c5wRes 2] ++
        [Event.runEnd FullStatus.interrupted 9])) "partial.spec.ts" = 1 := by
  have h := c5_onend_flush false [c5wT1, c5wT2] 1
    [Event.testEnd c5wT1 c5wRes 2] FullStatus.interrupted 9
    (by intro e he; simp at he; rw [he]; exact ⟨rfl, by decide⟩)
    (by decide) "partial.spec.ts" c5wSpec (by decide) (by decide) (by decide)
  exact ⟨h.1, h.2.1⟩

end PCR
